import Mathlib

/-!
Shallow embedding of the plan-acquisition core of the Friend-Project
repository (src/crew.py, class HouseCrew).  Python strings are modelled as
lists of characters (`Str`); Python functions that can raise uncaught
exceptions return `Option` values, `none` modelling the exception
propagating to the caller.  JSON values produced by `json.loads` are
modelled by the inductive type `Json`; `json.loads` itself and
`json.dumps` (used only to state the round-trip claim) are modelled by a
strict fuel-based recursive-descent parser and a serializer that follow
the Python `json` module's documented behaviour (object member order is
insertion order with a duplicate key replacing the value in place; number
literals are restricted to integers, which is the only place where the
model is narrower than the library, floating point being out of scope).
-/

/-- Python strings are modelled as lists of characters. -/
abbrev Str := List Char

/-- Coercion from a Lean string literal to the `Str` model. -/
def str (s : String) : Str := s.toList

/-- The backtick character (written by code point so that the character
never appears literally in the file). -/
def btick : Char := Char.ofNat 96

/-- The opening-brace character. -/
def lbrace : Char := Char.ofNat 123

/-- The closing-brace character. -/
def rbrace : Char := Char.ofNat 125

/-- Whitespace in the sense of Python's `str.strip()` (ASCII part; the
inputs of this development are ASCII). -/
def isPyWs (c : Char) : Bool :=
  c = ' ' || c = '\t' || c = '\n' || c = '\r' || c = Char.ofNat 11 || c = Char.ofNat 12

/-- Python `str.strip()`: drop whitespace from both ends. -/
def pyStrip (xs : Str) : Str :=
  ((xs.dropWhile isPyWs).reverse.dropWhile isPyWs).reverse

/-- Whether the string contains an opening brace, modelling Python's
`"{" in p`. -/
def hasLBrace : Str → Bool
  | [] => false
  | c :: r => (c = lbrace) || hasLBrace r

/-- Whether the string contains a triple-backtick fence marker, modelling
Python's `"\x60\x60\x60" in text`. -/
def hasFence : Str → Bool
  | c1 :: c2 :: c3 :: r =>
      (c1 = btick && c2 = btick && c3 = btick) || hasFence (c2 :: c3 :: r)
  | _ => false

/-- Worker for `fenceSplit`: `cur` is the chunk accumulated so far.
Models Python's `text.split("\x60\x60\x60")` (leftmost, non-overlapping). -/
def fenceSplitGo (cur : Str) : Str → List Str
  | c1 :: c2 :: c3 :: r =>
      if c1 = btick && c2 = btick && c3 = btick then
        cur :: fenceSplitGo [] r
      else
        fenceSplitGo (cur ++ [c1]) (c2 :: c3 :: r)
  | [c1, c2] => [cur ++ [c1, c2]]
  | [c1] => [cur ++ [c1]]
  | [] => [cur]

/-- Python `text.split("\x60\x60\x60")`. -/
def fenceSplit (xs : Str) : List Str := fenceSplitGo [] xs

/-- Python `candidate.replace("json", "", 1)`: remove the first occurrence
of the four characters `json`, leave the string unchanged if there is
none. -/
def replaceFirstJson : Str → Str
  | 'j' :: 's' :: 'o' :: 'n' :: rest => rest
  | c :: rest => c :: replaceFirstJson rest
  | [] => []

/-- Keep everything up to and including the last closing brace
(the string is assumed to contain one). -/
def upToLastRBrace (xs : Str) : Str :=
  (xs.reverse.dropWhile (fun c => ¬ (c = rbrace))).reverse

/-- Python `re.search(r"(\x7b.*\x7d)", s, flags=re.S)` with a greedy `.*`:
the match, when it exists, runs from the first opening brace to the last
closing brace of the string (the last closing brace must come after the
first opening brace).  Returns `none` when the regex does not match. -/
def braceMatch (xs : Str) : Option Str :=
  match xs.dropWhile (fun c => ¬ (c = lbrace)) with
  | [] => none
  | c :: tail =>
      if rbrace ∈ tail then some (upToLastRBrace (c :: tail)) else none

/-- Processing of the fenced part selected by `_clean_json_from_text`
(source lines 54-61): remove the first occurrence of `json`, strip, then
take the greedy first-to-last brace match, falling back to the stripped
candidate itself when the regex fails.  The Python code always returns a
string (never `None`) from this branch. -/
def fencedCandidate (p : Str) : Str :=
  let c := pyStrip (replaceFirstJson p)
  match braceMatch c with
  | some g => g
  | none => pyStrip c

/-- Model of `HouseCrew._clean_json_from_text` (source lines 42-67).
`none` models Python returning `None`. -/
def _clean_json_from_text (text : Str) : Option Str :=
  let t := pyStrip text
  if hasFence t then
    match (fenceSplit t).find? (fun p => hasLBrace p) with
    | some p => some (fencedCandidate p)
    | none => braceMatch t
  else
    braceMatch t

/-- Numeric value of an ASCII decimal digit. -/
def digitVal? (c : Char) : Option Nat :=
  if '0' ≤ c ∧ c ≤ '9' then some (c.toNat - 48) else none

/-- Accumulate a run of decimal digits (the whole string must consist of
at least one digit), used to model Python's `int(...)`. -/
def parseAllDigits : Str → Option Nat → Option Nat
  | [], acc => acc
  | c :: r, acc =>
      match digitVal? c with
      | some d => parseAllDigits r (some ((acc.getD 0) * 10 + d))
      | none => none

/-- Model of Python's `int(s)` on a string: strip whitespace, one optional
sign, then one or more ASCII digits; anything else raises `ValueError`
(modelled as `none`).  (Underscore digit grouping and non-ASCII digits,
which Python also accepts, are outside the inputs of this development.) -/
def pyInt (s : Str) : Option Int :=
  match pyStrip s with
  | '+' :: r => (parseAllDigits r none).map Int.ofNat
  | '-' :: r => (parseAllDigits r none).map (fun n => -(Int.ofNat n))
  | r => (parseAllDigits r none).map Int.ofNat

/-- Decimal digit character of a value below ten. -/
def digitChar (d : Nat) : Char := Char.ofNat (48 + d)

/-- Fuel-driven decimal rendering of a natural number (most significant
digit first); `natToDigits` supplies enough fuel for the whole number. -/
def natToDigitsAux : Nat → Nat → Str
  | 0, _ => []
  | fuel + 1, n =>
      if n < 10 then [digitChar n]
      else natToDigitsAux fuel (n / 10) ++ [digitChar (n % 10)]

/-- Decimal rendering of a natural number. -/
def natToDigits (n : Nat) : Str := natToDigitsAux (n + 1) n

/-- Decimal rendering of an integer, as Python's `str` / f-string
formatting produces it. -/
def intToStr (n : Int) : Str :=
  if n < 0 then '-' :: natToDigits n.natAbs else natToDigits n.natAbs

/-- JSON values, the model of what Python's `json.loads` produces.
Object members are kept in insertion order, as Python dicts do; number
literals are modelled as integers. -/
inductive Json where
  | null : Json
  | bool : Bool → Json
  | num : Int → Json
  | str : Str → Json
  | arr : List Json → Json
  | obj : List (Str × Json) → Json

/-- Insertion into a JSON object in Python-dict style: an existing key
keeps its position and gets the new value, a new key is appended. -/
def objInsert (k : Str) (v : Json) : List (Str × Json) → List (Str × Json)
  | [] => [(k, v)]
  | (k', v') :: rest =>
      if k' = k then (k', v) :: rest else (k', v') :: objInsert k v rest

/-- JSON whitespace as skipped by Python's `json.loads`. -/
def jsonWs (c : Char) : Bool := c = ' ' || c = '\t' || c = '\n' || c = '\r'

/-- Skip JSON whitespace. -/
def skipWs (s : Str) : Str := s.dropWhile jsonWs

/-- Value of a hexadecimal digit character (both cases), as accepted in a
`\uXXXX` escape. -/
def hexVal? (c : Char) : Option Nat :=
  if '0' ≤ c ∧ c ≤ '9' then some (c.toNat - 48)
  else if 'a' ≤ c ∧ c ≤ 'f' then some (c.toNat - 87)
  else if 'A' ≤ c ∧ c ≤ 'F' then some (c.toNat - 55)
  else none

/-- Value of four hexadecimal digits. -/
def hex4? (a b c d : Char) : Option Nat :=
  match hexVal? a, hexVal? b, hexVal? c, hexVal? d with
  | some x, some y, some z, some w => some (x * 4096 + y * 256 + z * 16 + w)
  | _, _, _, _ => none

/-- Short escapes accepted after a backslash in a JSON string. -/
def escChar? (e : Char) : Option Char :=
  if e = '"' then some '"'
  else if e = '\\' then some '\\'
  else if e = '/' then some '/'
  else if e = 'b' then some (Char.ofNat 8)
  else if e = 'f' then some (Char.ofNat 12)
  else if e = 'n' then some '\n'
  else if e = 'r' then some '\r'
  else if e = 't' then some '\t'
  else none

/-- Parse the body of a JSON string after its opening quote, returning the
decoded content and the remaining input after the closing quote.  Mirrors
Python's strict `json.loads` string scanner: raw control characters are
rejected, `\uXXXX` escapes are decoded, and a high/low surrogate escape
pair is combined into one character.  (A lone surrogate escape, which
Python would keep as an unpaired surrogate, has no counterpart in Lean's
`Char` and makes the parse fail.) -/
def parseJStr : Str → Option (Str × Str)
  | '"' :: r => some ([], r)
  | '\\' :: 'u' :: a :: b :: c :: d :: '\\' :: 'u' :: a2 :: b2 :: c2 :: d2 :: r =>
      (match hex4? a b c d, hex4? a2 b2 c2 d2 with
       | some n, some m =>
           if 0xD800 ≤ n ∧ n ≤ 0xDBFF then
             if 0xDC00 ≤ m ∧ m ≤ 0xDFFF then
               (parseJStr r).map (fun pr =>
                 (Char.ofNat (0x10000 + (n - 0xD800) * 0x400 + (m - 0xDC00)) :: pr.1, pr.2))
             else none
           else if 0xDC00 ≤ n ∧ n ≤ 0xDFFF then none
           else
             (parseJStr ('\\' :: 'u' :: a2 :: b2 :: c2 :: d2 :: r)).map (fun pr =>
               (Char.ofNat n :: pr.1, pr.2))
       | _, _ => none)
  | '\\' :: 'u' :: a :: b :: c :: d :: r =>
      (match hex4? a b c d with
       | some n =>
           if 0xD800 ≤ n ∧ n ≤ 0xDFFF then none
           else (parseJStr r).map (fun pr => (Char.ofNat n :: pr.1, pr.2))
       | none => none)
  | '\\' :: e :: r =>
      (match escChar? e with
       | some c => (parseJStr r).map (fun pr => (c :: pr.1, pr.2))
       | none => none)
  | c :: r =>
      if c.toNat < 32 then none
      else (parseJStr r).map (fun pr => (c :: pr.1, pr.2))
  | [] => none

/-- Greedily consume decimal digits, extending the accumulator. -/
def grabDigits (acc : Nat) : Str → Nat × Str
  | [] => (acc, [])
  | c :: r =>
      match digitVal? c with
      | some d => grabDigits (acc * 10 + d) r
      | none => (acc, c :: r)

/-- After an integer literal, a fraction or exponent marker would start a
floating-point number, which this model does not cover: reject it. -/
def okAfterNum : Str → Bool
  | [] => true
  | c :: _ => ¬ (c = '.' ∨ c = 'e' ∨ c = 'E')

/-- Parse an unsigned JSON integer literal. -/
def parseJNum : Str → Option (Nat × Str)
  | '0' :: r => if okAfterNum r then some (0, r) else none
  | c :: r =>
      match digitVal? c with
      | some d =>
          match grabDigits d r with
          | (v, rest) => if okAfterNum rest then some (v, rest) else none
      | none => none
  | [] => none

/-- Parsing tasks of the recursive-descent JSON parser: a value, the rest
of an array after the opening bracket, or the rest of an object after the
opening brace (both positioned at the start of the next element). -/
inductive PTask where
  | val : Str → PTask
  | arrTail : List Json → Str → PTask
  | objTail : List (Str × Json) → Str → PTask

/-- Fuel-driven recursive-descent JSON parser, the model of Python's
strict `json.loads` (restricted to integer number literals).  Returns the
parsed value and the unconsumed rest of the input. -/
def parseF : Nat → PTask → Option (Json × Str)
  | 0, _ => none
  | fuel + 1, PTask.val s =>
      match skipWs s with
      | [] => none
      | c :: r =>
          if c = lbrace then
            match skipWs r with
            | c2 :: r2 => if c2 = rbrace then some (Json.obj [], r2) else parseF fuel (PTask.objTail [] r)
            | [] => none
          else if c = '[' then
            match skipWs r with
            | c2 :: r2 =>
                if c2 = ']' then some (Json.arr [], r2)
                else parseF fuel (PTask.arrTail [] r)
            | [] => none
          else if c = '"' then
            (parseJStr r).map (fun pr => (Json.str pr.1, pr.2))
          else if c = '-' then
            (parseJNum r).map (fun pr => (Json.num (-(Int.ofNat pr.1)), pr.2))
          else if c = 't' then
            match r with
            | 'r' :: 'u' :: 'e' :: r2 => some (Json.bool true, r2)
            | _ => none
          else if c = 'f' then
            match r with
            | 'a' :: 'l' :: 's' :: 'e' :: r2 => some (Json.bool false, r2)
            | _ => none
          else if c = 'n' then
            match r with
            | 'u' :: 'l' :: 'l' :: r2 => some (Json.null, r2)
            | _ => none
          else
            (parseJNum (c :: r)).map (fun pr => (Json.num (Int.ofNat pr.1), pr.2))
  | fuel + 1, PTask.arrTail acc s =>
      match parseF fuel (PTask.val s) with
      | none => none
      | some (v, r) =>
          match skipWs r with
          | c :: r2 =>
              if c = ',' then parseF fuel (PTask.arrTail (acc ++ [v]) r2)
              else if c = ']' then some (Json.arr (acc ++ [v]), r2)
              else none
          | [] => none
  | fuel + 1, PTask.objTail acc s =>
      match skipWs s with
      | c :: r =>
          if c = '"' then
            match parseJStr r with
            | some (k, r2) =>
                match skipWs r2 with
                | c2 :: r3 =>
                    if c2 = ':' then
                      match parseF fuel (PTask.val r3) with
                      | some (v, r4) =>
                          match skipWs r4 with
                          | c3 :: r5 =>
                              if c3 = ',' then parseF fuel (PTask.objTail (objInsert k v acc) r5)
                              else if c3 = rbrace then some (Json.obj (objInsert k v acc), r5)
                              else none
                          | [] => none
                      | none => none
                    else none
                | [] => none
            | none => none
          else none
      | [] => none

/-- Model of Python's `json.loads`: parse one value and require that only
whitespace remains. -/
def jsonLoads (s : Str) : Option Json :=
  match parseF (2 * s.length + 8) (PTask.val s) with
  | some (j, rest) => if skipWs rest = [] then some j else none
  | none => none

/-- Hexadecimal digit character (lowercase), as Python's `json.dumps`
emits in `\uXXXX` escapes. -/
def hexDigitChar (d : Nat) : Char :=
  if d < 10 then Char.ofNat (48 + d) else Char.ofNat (87 + d)

/-- Four lowercase hexadecimal digits of a value below 65536. -/
def hex4 (n : Nat) : Str :=
  [hexDigitChar (n / 4096 % 16), hexDigitChar (n / 256 % 16),
   hexDigitChar (n / 16 % 16), hexDigitChar (n % 16)]

/-- A `\uXXXX` escape. -/
def uEsc (n : Nat) : Str := '\\' :: 'u' :: hex4 n

/-- Serialization of one character inside a JSON string, following
`json.dumps` with its default `ensure_ascii=True`: quote, backslash and
the common control characters get short escapes, other characters outside
printable ASCII get `\uXXXX` escapes, a character beyond the basic
multilingual plane becomes a surrogate pair of escapes. -/
def escapeChar (c : Char) : Str :=
  if c = '"' then ['\\', '"']
  else if c = '\\' then ['\\', '\\']
  else if c = Char.ofNat 8 then ['\\', 'b']
  else if c = '\t' then ['\\', 't']
  else if c = '\n' then ['\\', 'n']
  else if c = Char.ofNat 12 then ['\\', 'f']
  else if c = '\r' then ['\\', 'r']
  else if 32 ≤ c.toNat ∧ c.toNat ≤ 126 then [c]
  else if c.toNat < 0x10000 then uEsc c.toNat
  else uEsc (0xD800 + (c.toNat - 0x10000) / 0x400) ++ uEsc (0xDC00 + (c.toNat - 0x10000) % 0x400)

/-- Serialization of the body of a JSON string. -/
def escapeStr : Str → Str
  | [] => []
  | c :: r => escapeChar c ++ escapeStr r

/-- Serialization of a JSON string with its quotes. -/
def serStr (s : Str) : Str := '"' :: (escapeStr s ++ ['"'])

mutual

/-- Model of Python's `json.dumps` with default options (separators
`", "` and `": "`). -/
def dumps : Json → Str
  | Json.null => str ("null")
  | Json.bool true => str ("true")
  | Json.bool false => str ("false")
  | Json.num n => intToStr n
  | Json.str s => serStr s
  | Json.arr [] => ['[', ']']
  | Json.arr (x :: xs) => '[' :: ((dumps x ++ serArrRest xs) ++ [']'])
  | Json.obj [] => [lbrace, rbrace]
  | Json.obj ((k, v) :: kvs) =>
      lbrace :: ((serStr k ++ (':' :: ' ' :: dumps v) ++ serObjRest kvs) ++ [rbrace])

/-- Comma-separated serialization of the remaining elements of an array. -/
def serArrRest : List Json → Str
  | [] => []
  | x :: xs => ',' :: ' ' :: (dumps x ++ serArrRest xs)

/-- Comma-separated serialization of the remaining members of an object. -/
def serObjRest : List (Str × Json) → Str
  | [] => []
  | (k, v) :: kvs => ',' :: ' ' :: (serStr k ++ (':' :: ' ' :: dumps v) ++ serObjRest kvs)

end

/-- Well-formedness of a parsed JSON value: every object that occurs in
it has pairwise distinct keys (which is automatic for the output of
`json.loads`, since dict insertion overwrites duplicates). -/
inductive Canon : Json → Prop where
  | null : Canon Json.null
  | bool : ∀ b, Canon (Json.bool b)
  | num : ∀ n, Canon (Json.num n)
  | str : ∀ s, Canon (Json.str s)
  | arr : ∀ xs, (∀ x ∈ xs, Canon x) → Canon (Json.arr xs)
  | obj : ∀ kvs, (∀ p ∈ kvs, Canon p.2) → (kvs.map Prod.fst).Nodup → Canon (Json.obj kvs)

/-- The fixed three-room template of the local fallback (source lines
83-87). -/
def templateRooms : List Json :=
  [Json.obj [(str ("room"), Json.str (str ("Master Bedroom"))), (str ("size"), Json.str (str ("12x14 ft")))],
   Json.obj [(str ("room"), Json.str (str ("Living Room"))), (str ("size"), Json.str (str ("14x16 ft")))],
   Json.obj [(str ("room"), Json.str (str ("Kitchen"))), (str ("size"), Json.str (str ("10x12 ft")))]]

/-- The generated rooms of the local fallback (source lines 80-81):
`Room i` for `i` from 1 to the room count, each sized `{base}x{base} ft`. -/
def generatedRooms (base : Int) (r : Nat) : List Json :=
  (List.range r).map (fun i =>
    Json.obj [(str ("room"), Json.str (str ("Room ") ++ natToDigits (i + 1))),
              (str ("size"), Json.str (intToStr base ++ str ("x") ++ intToStr base ++ str (" ft")))])

/-- The Plan dictionary assembled by the local fallback (source lines
89-95). -/
def fallbackPlanObj (room_plan : List Json) (budget rooms style furniture : Str) : Json :=
  Json.obj
    [(str ("summary"), Json.str (str ("Local fallback plan: ") ++ rooms ++
        str (" rooms, style=") ++ style ++ str (", furniture=") ++ furniture)),
     (str ("room_plan"), Json.arr room_plan),
     (str ("materials"), Json.arr
        [Json.str (str ("Cement - 30 bags")), Json.str (str ("Bricks - 5000 units")),
         Json.str (str ("Sand - 10 tons"))]),
     (str ("estimated_cost"), Json.str (str ("₹") ++ budget ++ str (" (approx)"))),
     (str ("design_features"), Json.arr
        [Json.str (str ("Natural ventilation")), Json.str (str ("Basic modern lighting"))])]

/-- Model of `HouseCrew._local_fallback_plan` (source lines 69-95).
Only `int(rooms)` is guarded by a `try` in the source; `int(area)` on
line 79 is executed unguarded when the room count is a positive integer,
so a non-numeric area raises `ValueError` there, modelled by `none`. -/
def _local_fallback_plan (area budget rooms style furniture : Str) : Option Json :=
  match pyInt rooms with
  | some r =>
      if 0 < r then
        match pyInt area with
        | some a =>
            some (fallbackPlanObj
              (generatedRooms (max 8 (Int.fdiv a (max 1 r))) r.toNat) budget rooms style furniture)
        | none => none
      else some (fallbackPlanObj templateRooms budget rooms style furniture)
  | none => some (fallbackPlanObj templateRooms budget rooms style furniture)

/-- Processing of one backend's raw text inside the loop of
`generate_plan` (source lines 134-145): strip it, run the extractor, fall
back to the stripped raw text when the extractor returns `None`, and
strict-JSON-parse the result.  `none` models the `json.loads` call
raising, which the enclosing `try` turns into trying the next backend. -/
def attemptParse (text : Str) : Option Json :=
  let t := pyStrip text
  match _clean_json_from_text t with
  | some c => jsonLoads c
  | none => jsonLoads t

/-- One backend attempt: `none` models the model invocation raising, and
`some text` models it returning the normalized response text. -/
abbrev Backend := Option Str

/-- The model-trying loop of `generate_plan` (source lines 122-153):
backends are attempted in order; an attempt that raises or whose text
fails extraction-plus-parsing is skipped; the first parsed plan is
returned together with the number of backends attempted; when the list is
exhausted the local fallback plan is computed (outside any `try`: its
exception, modelled by `none`, propagates). -/
def tryModels (area budget rooms style furniture : Str) :
    List Backend → Nat → Option Json × Nat
  | [], n => (_local_fallback_plan area budget rooms style furniture, n)
  | b :: rest, n =>
      match b with
      | none => tryModels area budget rooms style furniture rest (n + 1)
      | some text =>
          match attemptParse text with
          | some plan => (some plan, n + 1)
          | none => tryModels area budget rooms style furniture rest (n + 1)

/-- Model of `HouseCrew.generate_plan` (source lines 97-153).
`available` models `self.available` (set in `__init__` from SDK presence
and the credential); the backend list stands for the models of
`models_to_try` together with their behaviour on this request.  The
result pairs the returned plan (`none` = an uncaught exception) with the
number of backends attempted. -/
def generate_plan (available : Bool) (backends : List Backend)
    (area budget rooms style furniture : Str) : Option Json × Nat :=
  if available then tryModels area budget rooms style furniture backends 0
  else (_local_fallback_plan area budget rooms style furniture, 0)

/-- Lookup of a key in a JSON object (the first binding wins, matching
Python dicts because object models built by the parser never repeat a
key). -/
def jsonGet (k : Str) : Json → Option Json
  | Json.obj kvs => kvs.lookup k
  | _ => none

/-- The room_plan entry of a plan, used to state the fallback claims. -/
def roomPlanOf (j : Json) : Option Json := jsonGet (str ("room_plan")) j

/-- Whether a JSON value is an object (a mapping), as the spec's Plan is. -/
def isObj : Json → Bool
  | Json.obj _ => true
  | _ => false

/-- First backend whose attempt yields a parsed plan, together with its
position, written the way the spec describes the invoker; used to state
the corrected form of the sequencing claim. -/
def firstHit : List Backend → Option (Nat × Json)
  | [] => none
  | b :: rest =>
      match b.bind attemptParse with
      | some j => some (0, j)
      | none => (firstHit rest).map (fun p => (p.1 + 1, p.2))

/-- The result `generate_plan` is claimed (in corrected form) to produce:
the first successfully parsed backend plan, after attempting exactly the
backends up to and including it, and otherwise the local fallback plan
after attempting every backend. -/
def firstHitResult (backends : List Backend)
    (area budget rooms style furniture : Str) : Option Json × Nat :=
  match firstHit backends with
  | some (k, j) => (some j, k + 1)
  | none => (_local_fallback_plan area budget rooms style furniture, backends.length)

/-! Auxiliary lemmas about the string primitives. -/

theorem dropWhile_twice (p : Char → Bool) (l : Str) :
    (l.dropWhile p).dropWhile p = l.dropWhile p := by
  induction l with
  | nil => rfl
  | cons c r ih =>
      by_cases h : p c
      · simpa [List.dropWhile_cons_of_pos h] using ih
      · simp [List.dropWhile_cons_of_neg h]

theorem dropWhile_head_false (p : Char → Bool) (l : Str) (c : Char) (r : Str)
    (h : l.dropWhile p = c :: r) : p c = false := by
  induction l with
  | nil => simp at h
  | cons x xs ih =>
      by_cases hx : p x
      · exact ih (by simpa [List.dropWhile_cons_of_pos hx] using h)
      · rw [List.dropWhile_cons_of_neg hx] at h
        cases h
        exact Bool.of_not_eq_true hx

theorem rstrip_prefix (p : Char → Bool) (l : Str) :
    ((l.reverse.dropWhile p).reverse) <+: l := by
  have h1 : l.reverse.dropWhile p <:+ l.reverse := List.dropWhile_suffix p
  have h2 : (l.reverse.dropWhile p).reverse <+: l.reverse.reverse :=
    List.reverse_prefix.mpr h1
  simpa using h2

theorem pyStrip_sub (xs : Str) : pyStrip xs <:+: xs := by
  unfold pyStrip
  have h1 : xs.dropWhile isPyWs <:+ xs := List.dropWhile_suffix isPyWs
  have h2 := rstrip_prefix isPyWs (xs.dropWhile isPyWs)
  exact (h2.isInfix).trans h1.isInfix

theorem pyStrip_idem (xs : Str) : pyStrip (pyStrip xs) = pyStrip xs := by
  unfold pyStrip
  set u := xs.dropWhile isPyWs with hu
  set v := (u.reverse.dropWhile isPyWs).reverse with hv
  have hpre : v <+: u := rstrip_prefix isPyWs u
  have hld : v.dropWhile isPyWs = v := by
    cases hcase : u with
    | nil =>
        have : v = [] := by
          rw [hv, hcase]
          rfl
        rw [this]
        rfl
    | cons c r =>
        have hc : isPyWs c = false := dropWhile_head_false isPyWs xs c r (by rw [← hu, hcase])
        cases hvc : v with
        | nil => rfl
        | cons d t =>
            have : d = c := by
              rcases hpre with ⟨w, hw⟩
              rw [hvc, hcase] at hw
              exact (List.cons.injEq _ _ _ _).mp hw |>.1
            rw [List.dropWhile_cons_of_neg (by rw [this]; exact (Bool.not_eq_true _).mpr hc)]
  rw [hld]
  have : v.reverse.dropWhile isPyWs = v.reverse := by
    rw [hv, List.reverse_reverse]
    exact dropWhile_twice isPyWs u.reverse
  rw [this, hv, List.reverse_reverse]

theorem pyStrip_wrap (c d : Char) (m : Str) (hc : isPyWs c = false) (hd : isPyWs d = false) :
    pyStrip (c :: (m ++ [d])) = c :: (m ++ [d]) := by
  unfold pyStrip
  rw [List.dropWhile_cons_of_neg (by simp [hc])]
  have hrev : (c :: (m ++ [d])).reverse = d :: (m.reverse ++ [c]) := by simp
  rw [hrev, List.dropWhile_cons_of_neg (by simp [hd]), ← hrev, List.reverse_reverse]

theorem hasLBrace_iff (xs : Str) : hasLBrace xs = true ↔ lbrace ∈ xs := by
  induction xs with
  | nil => simp [hasLBrace]
  | cons c r ih =>
      simp only [hasLBrace, Bool.or_eq_true, decide_eq_true_eq, List.mem_cons, ih]
      constructor
      · rintro (h | h)
        · exact Or.inl h.symm
        · exact Or.inr h
      · rintro (h | h)
        · exact Or.inl h.symm
        · exact Or.inr h

theorem hasLBrace_append (a b : Str) :
    hasLBrace (a ++ b) = (hasLBrace a || hasLBrace b) := by
  induction a with
  | nil => simp [hasLBrace]
  | cons c r ih => simp [hasLBrace, ih, Bool.or_assoc]

theorem hasFence_exists (xs : Str) :
    hasFence xs = true ↔ ∃ a b, xs = a ++ (btick :: btick :: btick :: b) := by
  constructor
  · intro h
    induction xs with
    | nil => simp [hasFence] at h
    | cons c r ih =>
        cases r with
        | nil => simp [hasFence] at h
        | cons c2 r2 =>
            cases r2 with
            | nil => simp [hasFence] at h
            | cons c3 r3 =>
                rw [hasFence] at h
                rcases Bool.or_eq_true _ _ |>.mp h with h1 | h2
                · refine ⟨[], r3, ?_⟩
                  simp only [Bool.and_eq_true, decide_eq_true_eq] at h1
                  rw [h1.1.1, h1.1.2, h1.2]
                  rfl
                · rcases ih h2 with ⟨a, b, hab⟩
                  exact ⟨c :: a, b, by rw [List.cons_append, ← hab]⟩
  · rintro ⟨a, b, rfl⟩
    induction a with
    | nil => simp [hasFence]
    | cons c r ih =>
        cases hr : r ++ (btick :: btick :: btick :: b) with
        | nil => simp at hr
        | cons x xs =>
            cases xs with
            | nil =>
                exfalso
                rcases List.append_eq_cons_iff.mp hr with ⟨h1, h2⟩ | ⟨t, h1, h2⟩
                · simp at h2
                · simp at h2
            | cons y ys =>
                rw [List.cons_append, hr, hasFence, ← hr, ih]
                simp

theorem hasFence_of_not_btick (xs : Str) (h : btick ∉ xs) : hasFence xs = false := by
  by_contra hc
  rcases hasFence_exists xs |>.mp (by simpa using hc) with ⟨a, b, rfl⟩
  exact h (by simp)

theorem hasFence_sub (xs ys : Str) (h : ys <:+: xs) (hx : hasFence xs = false) :
    hasFence ys = false := by
  by_contra hc
  rcases hasFence_exists ys |>.mp (by simpa using hc) with ⟨a, b, hab⟩
  rcases h with ⟨l, r, hlr⟩
  have : hasFence xs = true := by
    refine hasFence_exists xs |>.mpr ⟨l ++ a, b ++ r, ?_⟩
    rw [← hlr, hab]
    simp
  rw [this] at hx
  cases hx

theorem hasFence_append_left (a b : Str) (h : hasFence a = true) :
    hasFence (a ++ b) = true := by
  rcases hasFence_exists a |>.mp h with ⟨x, y, rfl⟩
  exact hasFence_exists _ |>.mpr ⟨x, y ++ b, by simp⟩

theorem fsGo_cons_ne (cur : Str) (c : Char) (rest : Str) (h : ¬ c = btick) :
    fenceSplitGo cur (c :: rest) = fenceSplitGo (cur ++ [c]) rest := by
  match rest with
  | [] => simp [fenceSplitGo]
  | [c2] => simp [fenceSplitGo]
  | c2 :: c3 :: r => simp [fenceSplitGo, h]

theorem fsGo_fence (cur : Str) (b : Str) :
    fenceSplitGo cur (btick :: btick :: btick :: b) = cur :: fenceSplitGo [] b := by
  simp [fenceSplitGo]

theorem fsGo_append (cur a b : Str) (h : btick ∉ a) :
    fenceSplitGo cur (a ++ (btick :: btick :: btick :: b)) = (cur ++ a) :: fenceSplitGo [] b := by
  induction a generalizing cur with
  | nil => simpa using fsGo_fence cur b
  | cons c r ih =>
      rw [List.cons_append, fsGo_cons_ne _ _ _ (fun hc => h (by simp [hc]))]
      rw [ih _ (fun hm => h (List.mem_cons_of_mem _ hm))]
      simp

theorem fsGo_no_btick (cur a : Str) (h : btick ∉ a) : fenceSplitGo cur a = [cur ++ a] := by
  induction a generalizing cur with
  | nil => simp [fenceSplitGo]
  | cons c r ih =>
      rw [fsGo_cons_ne _ _ _ (fun hc => h (by simp [hc]))]
      rw [ih _ (fun hm => h (List.mem_cons_of_mem _ hm))]
      simp

theorem fenceSplit_append (a b : Str) (h : btick ∉ a) :
    fenceSplit (a ++ (btick :: btick :: btick :: b)) = a :: fenceSplit b := by
  unfold fenceSplit
  simpa using fsGo_append [] a b h

theorem fenceSplit_no_btick (a : Str) (h : btick ∉ a) : fenceSplit a = [a] := by
  unfold fenceSplit
  simpa using fsGo_no_btick [] a h

theorem braceMatch_cons_ne (c : Char) (r : Str) (h : ¬ c = lbrace) :
    braceMatch (c :: r) = braceMatch r := by
  unfold braceMatch
  rw [List.dropWhile_cons_of_pos (by simpa using h)]

theorem braceMatch_none (xs : Str) (h : hasLBrace xs = false) : braceMatch xs = none := by
  induction xs with
  | nil => rfl
  | cons c r ih =>
      rw [hasLBrace] at h
      simp only [Bool.or_eq_false_iff, decide_eq_false_iff_not] at h
      rw [braceMatch_cons_ne c r h.1]
      exact ih h.2

theorem braceMatch_wrap (m : Str) :
    braceMatch (lbrace :: (m ++ [rbrace])) = some (lbrace :: (m ++ [rbrace])) := by
  unfold braceMatch
  rw [List.dropWhile_cons_of_neg (by simp)]
  show (if rbrace ∈ m ++ [rbrace] then some (upToLastRBrace (lbrace :: (m ++ [rbrace])))
    else none) = _
  rw [if_pos (by simp)]
  unfold upToLastRBrace
  have hrev : (lbrace :: (m ++ [rbrace])).reverse = rbrace :: (m.reverse ++ [lbrace]) := by simp
  rw [hrev, List.dropWhile_cons_of_neg (by simp), ← hrev, List.reverse_reverse]

theorem dumps_obj_shape (kvs : List (Str × Json)) :
    ∃ m, dumps (Json.obj kvs) = lbrace :: (m ++ [rbrace]) := by
  match kvs with
  | [] => exact ⟨[], by simp [dumps]⟩
  | (k, v) :: rest =>
      exact ⟨serStr k ++ (':' :: ' ' :: dumps v) ++ serObjRest rest, by simp [dumps]⟩

theorem pyStrip_dumps_obj (kvs : List (Str × Json)) :
    pyStrip (dumps (Json.obj kvs)) = dumps (Json.obj kvs) := by
  rcases dumps_obj_shape kvs with ⟨m, hm⟩
  rw [hm]
  exact pyStrip_wrap _ _ _ (by decide) (by decide)

theorem braceMatch_dumps_obj (kvs : List (Str × Json)) :
    braceMatch (dumps (Json.obj kvs)) = some (dumps (Json.obj kvs)) := by
  rcases dumps_obj_shape kvs with ⟨m, hm⟩
  rw [hm]
  exact braceMatch_wrap m

theorem hasLBrace_dumps_obj (kvs : List (Str × Json)) :
    hasLBrace (dumps (Json.obj kvs)) = true := by
  rcases dumps_obj_shape kvs with ⟨m, hm⟩
  rw [hm, hasLBrace_iff]
  simp

theorem clean_dumps_obj (kvs : List (Str × Json))
    (h : hasFence (dumps (Json.obj kvs)) = false) :
    _clean_json_from_text (dumps (Json.obj kvs)) = some (dumps (Json.obj kvs)) := by
  unfold _clean_json_from_text
  rw [pyStrip_dumps_obj]
  simp only [h, Bool.false_eq_true, if_false]
  exact braceMatch_dumps_obj kvs

/-! Lemmas about decimal digit rendering and parsing. -/

theorem ntdAux_congr (f1 : Nat) : ∀ f2 n, n < f1 → n < f2 →
    natToDigitsAux f1 n = natToDigitsAux f2 n := by
  induction f1 with
  | zero => intro f2 n h1; omega
  | succ g ih =>
      intro f2 n h1 h2
      cases f2 with
      | zero => omega
      | succ g2 =>
          by_cases h10 : n < 10
          · simp [natToDigitsAux, h10]
          · have hd : n / 10 < n := Nat.div_lt_self (by omega) (by omega)
            simp only [natToDigitsAux, h10, if_false]
            rw [ih g2 (n / 10) (by omega) (by omega)]

theorem ntd_lt10 (n : Nat) (h : n < 10) : natToDigits n = [digitChar n] := by
  simp [natToDigits, natToDigitsAux, h]

theorem ntd_ge10 (n : Nat) (h : 10 ≤ n) :
    natToDigits n = natToDigits (n / 10) ++ [digitChar (n % 10)] := by
  have hd : n / 10 < n := Nat.div_lt_self (by omega) (by omega)
  show natToDigitsAux (n + 1) n = _
  simp only [natToDigitsAux, Nat.not_lt.mpr h, if_false]
  rw [ntdAux_congr n (n / 10 + 1) (n / 10) (by omega) (by omega)]
  rfl

theorem ntd_ne_nil (n : Nat) : natToDigits n ≠ [] := by
  by_cases h : n < 10
  · rw [ntd_lt10 n h]; simp
  · rw [ntd_ge10 n (by omega)]; simp

theorem ntd_all_digits (n : Nat) : ∀ c ∈ natToDigits n, ∃ d, d < 10 ∧ c = digitChar d := by
  induction n using Nat.strong_induction_on with
  | _ n ih =>
      by_cases h : n < 10
      · rw [ntd_lt10 n h]
        intro c hc
        simp at hc
        exact ⟨n, h, hc⟩
      · rw [ntd_ge10 n (by omega)]
        intro c hc
        rcases List.mem_append.mp hc with hm | hm
        · exact ih (n / 10) (Nat.div_lt_self (by omega) (by omega)) c hm
        · simp at hm
          exact ⟨n % 10, by omega, hm⟩

theorem digitVal?_digitChar : ∀ d, d < 10 → digitVal? (digitChar d) = some d := by decide

theorem digitChar_ne_zero : ∀ n, n < 10 → 0 < n → ¬ digitChar n = '0' := by decide

theorem ntd_head_ne_zero (n : Nat) (hpos : 0 < n) :
    ∀ c cs, natToDigits n = c :: cs → ¬ c = '0' := by
  induction n using Nat.strong_induction_on with
  | _ n ih =>
      intro c cs hc
      by_cases h : n < 10
      · rw [ntd_lt10 n h] at hc
        cases hc
        exact digitChar_ne_zero n h hpos
      · rw [ntd_ge10 n (by omega)] at hc
        rcases hne : natToDigits (n / 10) with _ | ⟨c0, cs0⟩
        · exact absurd hne (ntd_ne_nil _)
        · rw [hne] at hc
          simp only [List.cons_append] at hc
          have : c0 = c := (List.cons.injEq _ _ _ _).mp hc |>.1
          subst this
          exact ih (n / 10) (Nat.div_lt_self (by omega) (by omega))
            (by omega) c0 cs0 hne

/-- Characters that may legitimately follow a serialized number: end of
input or a separator, neither a digit nor a fraction/exponent marker. -/
def numBdry : Str → Bool
  | [] => true
  | c :: _ => (digitVal? c = none) && ¬ (c = '.' ∨ c = 'e' ∨ c = 'E')

theorem numBdry_ok (rest : Str) (h : numBdry rest = true) : okAfterNum rest = true := by
  cases rest with
  | nil => rfl
  | cons c r =>
      simp only [numBdry, Bool.and_eq_true, decide_eq_true_eq] at h
      simp [okAfterNum, h.2]

theorem numBdry_head (c : Char) (r : Str) (h : numBdry (c :: r) = true) :
    digitVal? c = none := by
  simp only [numBdry, Bool.and_eq_true, decide_eq_true_eq] at h
  exact h.1

theorem grab_step (acc : Nat) (c : Char) (r : Str) (d : Nat) (h : digitVal? c = some d) :
    grabDigits acc (c :: r) = grabDigits (acc * 10 + d) r := by
  simp only [grabDigits, h]

theorem grab_stop (acc : Nat) (suffix : Str) (h : numBdry suffix = true) :
    grabDigits acc suffix = (acc, suffix) := by
  cases suffix with
  | nil => rfl
  | cons c r =>
      unfold grabDigits
      rw [numBdry_head c r h]

theorem grab_ntd (n : Nat) : ∀ acc suffix,
    grabDigits acc (natToDigits n ++ suffix) =
      grabDigits (acc * 10 ^ (natToDigits n).length + n) suffix := by
  induction n using Nat.strong_induction_on with
  | _ n ih =>
      intro acc suffix
      by_cases h : n < 10
      · rw [ntd_lt10 n h, List.singleton_append, grab_step acc _ _ n (digitVal?_digitChar n h)]
        simp
      · rw [ntd_ge10 n (by omega), List.append_assoc]
        rw [ih (n / 10) (Nat.div_lt_self (by omega) (by omega))]
        rw [List.singleton_append,
          grab_step _ _ _ (n % 10) (digitVal?_digitChar (n % 10) (by omega))]
        have hlen : (natToDigits n).length = (natToDigits (n / 10)).length + 1 := by
          rw [ntd_ge10 n (by omega)]
          simp
        simp only [List.length_append, List.length_singleton]
        rw [pow_succ, ← Nat.mul_assoc]
        have harith : (acc * 10 ^ (natToDigits (n / 10)).length + n / 10) * 10 + n % 10 =
            acc * 10 ^ (natToDigits (n / 10)).length * 10 + n := by
          generalize acc * 10 ^ (natToDigits (n / 10)).length = A
          omega
        rw [harith]

theorem parseJNum_ntd (n : Nat) (rest : Str) (h : numBdry rest = true) :
    parseJNum (natToDigits n ++ rest) = some (n, rest) := by
  by_cases n0 : n = 0
  · subst n0
    have h0 : natToDigits 0 = ['0'] := by decide
    rw [h0, List.singleton_append]
    show (if okAfterNum rest = true then some ((0 : Nat), rest) else none) = some (0, rest)
    rw [numBdry_ok rest h]
    rfl
  · rcases hcons : natToDigits n with _ | ⟨c, cs⟩
    · exact absurd hcons (ntd_ne_nil n)
    · have hmem : c ∈ natToDigits n := by rw [hcons]; exact List.mem_cons_self c cs
      rcases ntd_all_digits n c hmem with ⟨d, hd10, hcd⟩
      have hne0 : ¬ c = '0' := ntd_head_ne_zero n (by omega) c cs hcons
      have hval : digitVal? c = some d := hcd ▸ digitVal?_digitChar d hd10
      have hgrab : grabDigits d (cs ++ rest) = (n, rest) := by
        have h1 : grabDigits 0 (natToDigits n ++ rest) =
            grabDigits (0 * 10 ^ (natToDigits n).length + n) rest := grab_ntd n 0 rest
        rw [hcons, List.cons_append, grab_step 0 c _ d hval] at h1
        simpa [grab_stop n rest h] using h1
      rw [List.cons_append]
      unfold parseJNum
      split
      · rename_i heq
        exact absurd ((List.cons.injEq _ _ _ _).mp heq).1 hne0
      · rename_i heq
        injection heq with h1 h2
        subst h1; subst h2
        rw [hval]
        show (match grabDigits d (cs ++ rest) with
          | (v, r2) => if okAfterNum r2 = true then some (v, r2) else none) = some (n, rest)
        rw [hgrab]
        show (if okAfterNum rest = true then some (n, rest) else none) = some (n, rest)
        rw [numBdry_ok rest h]
        rfl
      · rename_i heq
        cases heq

theorem intToStr_nonneg (n : Int) (h : 0 ≤ n) : intToStr n = natToDigits n.natAbs := by
  unfold intToStr
  rw [if_neg (by omega)]

theorem intToStr_neg (n : Int) (h : n < 0) : intToStr n = '-' :: natToDigits n.natAbs := by
  unfold intToStr
  rw [if_pos h]

theorem hexVal?_hexDigitChar : ∀ d, d < 16 → hexVal? (hexDigitChar d) = some d := by decide

theorem hex4?_hex4 (n : Nat) (h : n < 65536) :
    hex4? (hexDigitChar (n / 4096 % 16)) (hexDigitChar (n / 256 % 16))
      (hexDigitChar (n / 16 % 16)) (hexDigitChar (n % 16)) = some n := by
  unfold hex4?
  rw [hexVal?_hexDigitChar _ (by omega), hexVal?_hexDigitChar _ (by omega),
    hexVal?_hexDigitChar _ (by omega), hexVal?_hexDigitChar _ (by omega)]
  show some _ = some n
  congr 1
  omega

theorem parseJStr_quote (r : Str) : parseJStr ('"' :: r) = some ([], r) := rfl

theorem parseJStr_lit (c : Char) (tail : Str) (h1 : ¬ c = '"') (h2 : ¬ c = '\\')
    (h3 : 32 ≤ c.toNat) :
    parseJStr (c :: tail) = (parseJStr tail).map (fun pr => (c :: pr.1, pr.2)) := by
  conv_lhs => unfold parseJStr
  split
  · rename_i heq
    injection heq with ha hb
    exact absurd ha h1
  · rename_i heq
    injection heq with ha hb
    exact absurd ha h2
  · rename_i heq
    injection heq with ha hb
    exact absurd ha h2
  · rename_i heq
    injection heq with ha hb
    exact absurd ha h2
  · rename_i heq
    injection heq with ha hb
    subst ha; subst hb
    rw [if_neg (by omega)]
  · rename_i heq
    cases heq

theorem parseJStr_esc (e ec : Char) (tail : Str) (he : escChar? e = some ec)
    (hne : ¬ e = 'u') :
    parseJStr ('\\' :: e :: tail) = (parseJStr tail).map (fun pr => (ec :: pr.1, pr.2)) := by
  conv_lhs => unfold parseJStr
  split
  · rename_i heq
    injection heq with ha hb
    cases ha
  · rename_i heq
    injection heq with ha hb
    injection hb with hc hd
    exact absurd hc hne
  · rename_i heq
    injection heq with ha hb
    injection hb with hc hd
    exact absurd hc hne
  · rename_i heq
    injection heq with ha hb
    injection hb with hc hd
    subst hc; subst hd
    rw [he]
  · rename_i hg1 hg2 hg3 hg4 heq
    injection heq with ha hb
    exact (hg4 e tail ha.symm hb.symm).elim
  · rename_i heq
    cases heq

theorem parseJStr_u_fail (a b c d : Char) (tail : Str) (hh : hex4? a b c d = none) :
    parseJStr ('\\' :: 'u' :: a :: b :: c :: d :: tail) = none := by
  conv_lhs => unfold parseJStr
  split
  · rename_i heq
    injection heq with ha _
    cases ha
  · rename_i heq
    injection heq with h1 h2
    injection h2 with h3 h4
    injection h4 with h5 h6
    injection h6 with h7 h8
    injection h8 with h9 h10
    injection h10 with h11 h12
    subst h5; subst h7; subst h9; subst h11
    rw [hh]
  · rename_i heq
    injection heq with h1 h2
    injection h2 with h3 h4
    injection h4 with h5 h6
    injection h6 with h7 h8
    injection h8 with h9 h10
    injection h10 with h11 h12
    subst h5; subst h7; subst h9; subst h11
    rw [hh]
  · rename_i hg1 hg2 hg3 heq
    injection heq with h1 h2
    injection h2 with h3 h4
    exact (hg3 a b c d tail h3.symm h4.symm).elim
  · rename_i hg1 hg2 hg3 hg4 heq
    injection heq with h1 h2
    exact (hg3 a b c d tail h1.symm h2.symm).elim
  · rename_i heq
    cases heq

theorem parseJStr_u_nosurr (a b c d : Char) (n : Nat) (tail : Str)
    (hh : hex4? a b c d = some n) (hs : ¬ (0xD800 ≤ n ∧ n ≤ 0xDFFF)) :
    parseJStr ('\\' :: 'u' :: a :: b :: c :: d :: tail) =
      (parseJStr tail).map (fun pr => (Char.ofNat n :: pr.1, pr.2)) := by
  conv_lhs => unfold parseJStr
  split
  · rename_i heq
    injection heq with ha _
    cases ha
  · rename_i a2 b2 c2 d2 r heq
    injection heq with h1 h2
    injection h2 with h3 h4
    injection h4 with h5 h6
    injection h6 with h7 h8
    injection h8 with h9 h10
    injection h10 with h11 h12
    subst h5; subst h7; subst h9; subst h11
    rw [hh]
    subst h12
    rcases hm : hex4? a2 b2 c2 d2 with _ | m
    · rw [parseJStr_u_fail a2 b2 c2 d2 r hm]
      rfl
    · simp only [if_neg (show ¬ (55296 ≤ n ∧ n ≤ 56319) from fun hc => hs ⟨hc.1, by omega⟩),
        if_neg (show ¬ (56320 ≤ n ∧ n ≤ 57343) from fun hc => hs ⟨by omega, hc.2⟩)]
  · rename_i heq
    injection heq with h1 h2
    injection h2 with h3 h4
    injection h4 with h5 h6
    injection h6 with h7 h8
    injection h8 with h9 h10
    injection h10 with h11 h12
    subst h5; subst h7; subst h9; subst h11
    subst h12
    rw [hh]
    simp only [if_neg hs]
  · rename_i hg1 hg2 hg3 heq
    injection heq with h1 h2
    injection h2 with h3 h4
    exact (hg3 a b c d tail h3.symm h4.symm).elim
  · rename_i hg1 hg2 hg3 hg4 heq
    injection heq with h1 h2
    exact (hg3 a b c d tail h1.symm h2.symm).elim
  · rename_i heq
    cases heq

theorem parseJStr_upair (a b c d a2 b2 c2 d2 : Char) (n m : Nat) (tail : Str)
    (hh1 : hex4? a b c d = some n) (hh2 : hex4? a2 b2 c2 d2 = some m)
    (hn1 : 0xD800 ≤ n) (hn2 : n ≤ 0xDBFF) (hm1 : 0xDC00 ≤ m) (hm2 : m ≤ 0xDFFF) :
    parseJStr ('\\' :: 'u' :: a :: b :: c :: d :: '\\' :: 'u' :: a2 :: b2 :: c2 :: d2 :: tail) =
      (parseJStr tail).map (fun pr =>
        (Char.ofNat (0x10000 + (n - 0xD800) * 0x400 + (m - 0xDC00)) :: pr.1, pr.2)) := by
  conv_lhs => unfold parseJStr
  split
  · rename_i heq
    injection heq with ha _
    cases ha
  · rename_i heq
    injection heq with h1 h2
    injection h2 with h3 h4
    injection h4 with h5 h6
    injection h6 with h7 h8
    injection h8 with h9 h10
    injection h10 with h11 h12
    injection h12 with h13 h14
    injection h14 with h15 h16
    injection h16 with h17 h18
    injection h18 with h19 h20
    injection h20 with h21 h22
    injection h22 with h23 h24
    subst h5; subst h7; subst h9; subst h11
    subst h17; subst h19; subst h21; subst h23
    subst h24
    rw [hh1, hh2]
    simp only [if_pos (And.intro hn1 hn2), if_pos (And.intro hm1 hm2)]
  · rename_i hg1 hg2 heq
    injection heq with h1 h2
    injection h2 with h3 h4
    injection h4 with h5 h6
    injection h6 with h7 h8
    injection h8 with h9 h10
    injection h10 with h11 h12
    exact (hg2 a2 b2 c2 d2 tail h12.symm).elim
  · rename_i hg1 hg2 hg3 heq
    injection heq with h1 h2
    injection h2 with h3 h4
    exact (hg2 a b c d a2 b2 c2 d2 tail h3.symm h4.symm).elim
  · rename_i hg1 hg2 hg3 hg4 heq
    injection heq with h1 h2
    exact (hg2 a b c d a2 b2 c2 d2 tail h1.symm h2.symm).elim
  · rename_i heq
    cases heq

theorem char_lt (c : Char) : c.toNat < 1114112 := by
  rcases c with ⟨v, hv⟩
  rcases hv with h | ⟨h1, h2⟩
  · exact Nat.lt_trans h (by norm_num)
  · exact h2

theorem char_not_surr (c : Char) : ¬ (55296 ≤ c.toNat ∧ c.toNat ≤ 57343) := by
  intro hc
  have he : c.toNat = c.val.toNat := rfl
  rcases c.valid with h | ⟨h1, h2⟩
  · omega
  · omega

theorem parseJStr_escapeStr (s : Str) : ∀ rest, parseJStr (escapeStr s ++ ('"' :: rest)) = some (s, rest) := by
  induction s with
  | nil =>
      intro rest
      simpa [escapeStr] using parseJStr_quote rest
  | cons c s' ih =>
      intro rest
      show parseJStr ((escapeChar c ++ escapeStr s') ++ ('"' :: rest)) = _
      rw [List.append_assoc]
      by_cases h1 : c = '"'
      · subst h1
        show parseJStr ('\\' :: '"' :: (escapeStr s' ++ '"' :: rest)) = _
        rw [parseJStr_esc '"' '"' _ (by decide) (by decide), ih rest]
        rfl
      · by_cases h2 : c = '\\'
        · subst h2
          show parseJStr ('\\' :: '\\' :: (escapeStr s' ++ '"' :: rest)) = _
          rw [parseJStr_esc '\\' '\\' _ (by decide) (by decide), ih rest]
          rfl
        · by_cases h3 : c = Char.ofNat 8
          · subst h3
            show parseJStr ('\\' :: 'b' :: (escapeStr s' ++ '"' :: rest)) = _
            rw [parseJStr_esc 'b' (Char.ofNat 8) _ (by decide) (by decide), ih rest]
            rfl
          · by_cases h4 : c = '\t'
            · subst h4
              show parseJStr ('\\' :: 't' :: (escapeStr s' ++ '"' :: rest)) = _
              rw [parseJStr_esc 't' '\t' _ (by decide) (by decide), ih rest]
              rfl
            · by_cases h5 : c = '\n'
              · subst h5
                show parseJStr ('\\' :: 'n' :: (escapeStr s' ++ '"' :: rest)) = _
                rw [parseJStr_esc 'n' '\n' _ (by decide) (by decide), ih rest]
                rfl
              · by_cases h6 : c = Char.ofNat 12
                · subst h6
                  show parseJStr ('\\' :: 'f' :: (escapeStr s' ++ '"' :: rest)) = _
                  rw [parseJStr_esc 'f' (Char.ofNat 12) _ (by decide) (by decide), ih rest]
                  rfl
                · by_cases h7 : c = '\r'
                  · subst h7
                    show parseJStr ('\\' :: 'r' :: (escapeStr s' ++ '"' :: rest)) = _
                    rw [parseJStr_esc 'r' '\r' _ (by decide) (by decide), ih rest]
                    rfl
                  · by_cases h8 : 32 ≤ c.toNat ∧ c.toNat ≤ 126
                    · have hesc : escapeChar c = [c] := by
                        unfold escapeChar
                        rw [if_neg h1, if_neg h2, if_neg h3, if_neg h4, if_neg h5,
                          if_neg h6, if_neg h7, if_pos h8]
                      rw [hesc, List.singleton_append,
                        parseJStr_lit c _ h1 h2 h8.1, ih rest]
                      rfl
                    · by_cases h9 : c.toNat < 65536
                      · have hesc : escapeChar c = uEsc c.toNat := by
                          unfold escapeChar
                          rw [if_neg h1, if_neg h2, if_neg h3, if_neg h4, if_neg h5,
                            if_neg h6, if_neg h7, if_neg h8, if_pos h9]
                        rw [hesc]
                        show parseJStr ('\\' :: 'u' :: hexDigitChar (c.toNat / 4096 % 16) ::
                          hexDigitChar (c.toNat / 256 % 16) :: hexDigitChar (c.toNat / 16 % 16) ::
                          hexDigitChar (c.toNat % 16) :: (escapeStr s' ++ '"' :: rest)) = _
                        rw [parseJStr_u_nosurr _ _ _ _ c.toNat _ (hex4?_hex4 c.toNat h9)
                          (char_not_surr c), ih rest]
                        simp [Char.ofNat_toNat]
                      · have hesc : escapeChar c = uEsc (55296 + (c.toNat - 65536) / 1024) ++
                            uEsc (56320 + (c.toNat - 65536) % 1024) := by
                          unfold escapeChar
                          rw [if_neg h1, if_neg h2, if_neg h3, if_neg h4, if_neg h5,
                            if_neg h6, if_neg h7, if_neg h8, if_neg h9]
                        have hv := char_lt c
                        rw [hesc, List.append_assoc]
                        show parseJStr ('\\' :: 'u' ::
                          hexDigitChar ((55296 + (c.toNat - 65536) / 1024) / 4096 % 16) ::
                          hexDigitChar ((55296 + (c.toNat - 65536) / 1024) / 256 % 16) ::
                          hexDigitChar ((55296 + (c.toNat - 65536) / 1024) / 16 % 16) ::
                          hexDigitChar ((55296 + (c.toNat - 65536) / 1024) % 16) ::
                          '\\' :: 'u' ::
                          hexDigitChar ((56320 + (c.toNat - 65536) % 1024) / 4096 % 16) ::
                          hexDigitChar ((56320 + (c.toNat - 65536) % 1024) / 256 % 16) ::
                          hexDigitChar ((56320 + (c.toNat - 65536) % 1024) / 16 % 16) ::
                          hexDigitChar ((56320 + (c.toNat - 65536) % 1024) % 16) ::
                          (escapeStr s' ++ '"' :: rest)) = _
                        rw [parseJStr_upair _ _ _ _ _ _ _ _
                          (55296 + (c.toNat - 65536) / 1024) (56320 + (c.toNat - 65536) % 1024) _
                          (hex4?_hex4 _ (by omega)) (hex4?_hex4 _ (by omega))
                          (by omega) (by omega) (by omega) (by omega), ih rest]
                        have hch : Char.ofNat (65536 + (55296 + (c.toNat - 65536) / 1024 - 55296) * 1024 +
                            (56320 + (c.toNat - 65536) % 1024 - 56320)) = c := by
                          have : 65536 + (55296 + (c.toNat - 65536) / 1024 - 55296) * 1024 +
                              (56320 + (c.toNat - 65536) % 1024 - 56320) = c.toNat := by
                            omega
                          rw [this, Char.ofNat_toNat]
                        rw [hch]
                        rfl

mutual

/-- Fuel sufficient for `parseF` to re-parse the serialization of a
value. -/
def jfuel : Json → Nat
  | Json.arr [] => 1
  | Json.arr (x :: xs) => 2 + jfuel x + jfuelL xs
  | Json.obj [] => 1
  | Json.obj ((_, v) :: kvs) => 2 + jfuel v + jfuelO kvs
  | _ => 1

/-- Fuel for the remaining elements of an array. -/
def jfuelL : List Json → Nat
  | [] => 0
  | x :: xs => 2 + jfuel x + jfuelL xs

/-- Fuel for the remaining members of an object. -/
def jfuelO : List (Str × Json) → Nat
  | [] => 0
  | (_, v) :: kvs => 2 + jfuel v + jfuelO kvs

end

theorem jfuel_pos (j : Json) : 1 ≤ jfuel j := by
  cases j with
  | arr xs => cases xs <;> simp only [jfuel] <;> omega
  | obj kvs =>
      cases kvs with
      | nil => simp only [jfuel]; omega
      | cons p rest => rcases p with ⟨k, v⟩; simp only [jfuel]; omega
  | null => simp only [jfuel]; omega
  | bool b => simp only [jfuel]; omega
  | num n => simp only [jfuel]; omega
  | str s => simp only [jfuel]; omega

theorem skipWs_cons_pos (c : Char) (s : Str) (h : jsonWs c = true) :
    skipWs (c :: s) = skipWs s := by
  unfold skipWs
  exact List.dropWhile_cons_of_pos h

theorem skipWs_cons_neg (c : Char) (s : Str) (h : jsonWs c = false) :
    skipWs (c :: s) = c :: s := by
  unfold skipWs
  exact List.dropWhile_cons_of_neg (by simp [h])

theorem parseF_val_ws (f : Nat) (c : Char) (s : Str) (h : jsonWs c = true) :
    parseF f (PTask.val (c :: s)) = parseF f (PTask.val s) := by
  cases f with
  | zero => rfl
  | succ g =>
      show (match skipWs (c :: s) with
        | [] => _
        | c :: r => _) = _
      rw [skipWs_cons_pos c s h]
      rfl

theorem parseF_arrTail_ws (f : Nat) (c : Char) (s : Str) (acc : List Json)
    (h : jsonWs c = true) :
    parseF f (PTask.arrTail acc (c :: s)) = parseF f (PTask.arrTail acc s) := by
  cases f with
  | zero => rfl
  | succ g =>
      show (match parseF g (PTask.val (c :: s)) with
        | none => none
        | some (v, r) => _) = _
      rw [parseF_val_ws g c s h]
      rfl

theorem parseF_objTail_ws (f : Nat) (c : Char) (s : Str) (acc : List (Str × Json))
    (h : jsonWs c = true) :
    parseF f (PTask.objTail acc (c :: s)) = parseF f (PTask.objTail acc s) := by
  cases f with
  | zero => rfl
  | succ g =>
      show (match skipWs (c :: s) with
        | c :: r => _
        | [] => none) = _
      rw [skipWs_cons_pos c s h]
      rfl

theorem objInsert_fresh (k : Str) (v : Json) (l : List (Str × Json))
    (h : k ∉ l.map Prod.fst) : objInsert k v l = l ++ [(k, v)] := by
  induction l with
  | nil => rfl
  | cons p rest ih =>
      rcases p with ⟨k', v'⟩
      have hk' : ¬ k' = k := by
        intro hk
        exact h (by rw [List.map_cons, hk]; exact List.mem_cons_self k _)
      have hrest : k ∉ rest.map Prod.fst := by
        intro hm
        exact h (by rw [List.map_cons]; exact List.mem_cons_of_mem _ hm)
      unfold objInsert
      rw [if_neg hk', ih hrest, List.cons_append]

theorem digit_facts : ∀ d, d < 10 → jsonWs (digitChar d) = false ∧
    ¬ digitChar d = ']' ∧ ¬ digitChar d = ',' ∧ ¬ digitChar d = rbrace := by decide

theorem dumps_head (j : Json) : ∃ c cs, dumps j = c :: cs ∧ jsonWs c = false ∧
    ¬ c = ']' ∧ ¬ c = ',' ∧ ¬ c = rbrace := by
  cases j with
  | null =>
      refine ⟨'n', str ("ull"), ?_, by decide, by decide, by decide, by decide⟩
      simp only [dumps]
      rfl
  | bool b =>
      cases b with
      | true =>
          refine ⟨'t', str ("rue"), ?_, by decide, by decide, by decide, by decide⟩
          simp only [dumps]
          rfl
      | false =>
          refine ⟨'f', str ("alse"), ?_, by decide, by decide, by decide, by decide⟩
          simp only [dumps]
          rfl
  | num n =>
      by_cases hn : n < 0
      · refine ⟨'-', natToDigits n.natAbs, ?_, by decide, by decide, by decide, by decide⟩
        simp only [dumps]
        exact intToStr_neg n hn
      · rcases hd : natToDigits n.natAbs with _ | ⟨c, cs⟩
        · exact absurd hd (ntd_ne_nil _)
        · have hmem : c ∈ natToDigits n.natAbs := by rw [hd]; exact List.mem_cons_self c cs
          rcases ntd_all_digits _ c hmem with ⟨d, hd10, rfl⟩
          rcases digit_facts d hd10 with ⟨f1, f2, f3, f4⟩
          refine ⟨digitChar d, cs, ?_, f1, f2, f3, f4⟩
          simp only [dumps]
          rw [intToStr_nonneg n (by omega), hd]
  | str s =>
      refine ⟨'"', escapeStr s ++ ['"'], ?_, by decide, by decide, by decide, by decide⟩
      simp only [dumps, serStr]
  | arr xs =>
      cases xs with
      | nil =>
          refine ⟨'[', [']'], ?_, by decide, by decide, by decide, by decide⟩
          simp only [dumps]
      | cons x rest =>
          refine ⟨'[', (dumps x ++ serArrRest rest) ++ [']'], ?_,
            by decide, by decide, by decide, by decide⟩
          simp only [dumps]
  | obj kvs =>
      rcases dumps_obj_shape kvs with ⟨m, hm⟩
      exact ⟨lbrace, m ++ [rbrace], hm, by decide, by decide, by decide, by decide⟩

theorem numBdry_serArr (xs : List Json) (rest : Str) :
    numBdry (serArrRest xs ++ (']' :: rest)) = true := by
  cases xs with
  | nil => rfl
  | cons x r => rfl

theorem numBdry_serObj (kvs : List (Str × Json)) (rest : Str) :
    numBdry (serObjRest kvs ++ (rbrace :: rest)) = true := by
  cases kvs with
  | nil => rfl
  | cons p r => rcases p with ⟨k, v⟩; rfl

theorem parseF_val_quote (g : Nat) (r : Str) :
    parseF (g + 1) (PTask.val ('"' :: r)) = (parseJStr r).map (fun pr => (Json.str pr.1, pr.2)) := rfl

theorem parseF_val_minus (g : Nat) (r : Str) :
    parseF (g + 1) (PTask.val ('-' :: r)) =
      (parseJNum r).map (fun pr => (Json.num (-(Int.ofNat pr.1)), pr.2)) := rfl

example (g : Nat) (rest : Str) :
    parseF (g + 1) (PTask.val (('n' :: 'u' :: 'l' :: 'l' :: []) ++ rest)) = some (Json.null, rest) := rfl

example (g : Nat) (rest : Str) :
    parseF (g + 1) (PTask.val (('[' :: ']' :: []) ++ rest)) = some (Json.arr [], rest) := rfl

example (g : Nat) (rest : Str) :
    parseF (g + 1) (PTask.val ((lbrace :: rbrace :: []) ++ rest)) = some (Json.obj [], rest) := rfl

theorem parseF_val_other (g : Nat) (c : Char) (r : Str) (h1 : jsonWs c = false)
    (h2 : ¬ c = lbrace) (h3 : ¬ c = '[') (h4 : ¬ c = '"') (h5 : ¬ c = '-')
    (h6 : ¬ c = 't') (h7 : ¬ c = 'f') (h8 : ¬ c = 'n') :
    parseF (g + 1) (PTask.val (c :: r)) =
      (parseJNum (c :: r)).map (fun pr => (Json.num (Int.ofNat pr.1), pr.2)) := by
  conv_lhs => unfold parseF
  rw [skipWs_cons_neg c r h1]
  simp only [if_neg h2, if_neg h3, if_neg h4, if_neg h5, if_neg h6, if_neg h7, if_neg h8]

theorem parseF_val_lbrack (g : Nat) (r r2 : Str) (c2 : Char)
    (h : skipWs r = c2 :: r2) (hne : ¬ c2 = ']') :
    parseF (g + 1) (PTask.val ('[' :: r)) = parseF g (PTask.arrTail [] r) := by
  conv_lhs => unfold parseF
  rw [skipWs_cons_neg '[' r (by decide)]
  simp only [if_neg (show ¬ ('[' : Char) = lbrace by decide), if_pos rfl, h, if_neg hne]
  rw [if_pos trivial]

theorem parseF_val_lbrace_obj (g : Nat) (r r2 : Str) (c2 : Char)
    (h : skipWs r = c2 :: r2) (hne : ¬ c2 = rbrace) :
    parseF (g + 1) (PTask.val (lbrace :: r)) = parseF g (PTask.objTail [] r) := by
  conv_lhs => unfold parseF
  rw [skipWs_cons_neg lbrace r (by decide)]
  simp only [if_pos rfl, h, if_neg hne]
  rw [if_pos trivial]

theorem digit_facts2 : ∀ d, d < 10 → ¬ digitChar d = lbrace ∧ ¬ digitChar d = '[' ∧
    ¬ digitChar d = '"' ∧ ¬ digitChar d = '-' ∧ ¬ digitChar d = 't' ∧
    ¬ digitChar d = 'f' ∧ ¬ digitChar d = 'n' := by decide

theorem parseF_val_digits (g n : Nat) (rest : Str) (h : numBdry rest = true) :
    parseF (g + 1) (PTask.val (natToDigits n ++ rest)) = some (Json.num (Int.ofNat n), rest) := by
  rcases hd : natToDigits n with _ | ⟨c, cs⟩
  · exact absurd hd (ntd_ne_nil n)
  · have hmem : c ∈ natToDigits n := by rw [hd]; exact List.mem_cons_self c cs
    rcases ntd_all_digits n c hmem with ⟨d, hd10, rfl⟩
    rcases digit_facts d hd10 with ⟨w1, _, _, _⟩
    rcases digit_facts2 d hd10 with ⟨g2, g3, g4, g5, g6, g7, g8⟩
    rw [List.cons_append, parseF_val_other g _ _ w1 g2 g3 g4 g5 g6 g7 g8, ← List.cons_append,
      ← hd, parseJNum_ntd n rest h]
    rfl

theorem canon_arr_mem (xs : List Json) (h : Canon (Json.arr xs)) : ∀ x ∈ xs, Canon x := by
  cases h with
  | arr _ h => exact h

theorem canon_obj_parts (kvs : List (Str × Json)) (h : Canon (Json.obj kvs)) :
    (∀ p ∈ kvs, Canon p.2) ∧ (kvs.map Prod.fst).Nodup := by
  cases h with
  | obj _ h1 h2 => exact ⟨h1, h2⟩

theorem nodup_head_fresh (acc : List (Str × Json)) (k : Str) (v : Json)
    (kvs : List (Str × Json))
    (h : ((acc ++ (k, v) :: kvs).map Prod.fst).Nodup) : k ∉ acc.map Prod.fst := by
  rw [List.map_append] at h
  rcases List.nodup_append.mp h with ⟨_, _, disj⟩
  intro hm
  exact disj hm (by rw [List.map_cons]; exact List.mem_cons_self k _)

theorem parseF_arrTail_step (g : Nat) (acc : List Json) (s : Str) (v : Json) (r : Str)
    (hv : parseF g (PTask.val s) = some (v, r)) :
    parseF (g + 1) (PTask.arrTail acc s) =
      (match skipWs r with
       | c :: r2 =>
           if c = ',' then parseF g (PTask.arrTail (acc ++ [v]) r2)
           else if c = ']' then some (Json.arr (acc ++ [v]), r2) else none
       | [] => none) := by
  conv_lhs => unfold parseF
  rw [hv]

theorem parseF_objTail_step (g : Nat) (acc : List (Str × Json)) (s : Str) (k : Str) (y : Str)
    (hs : skipWs s = '"' :: (escapeStr k ++ ('"' :: y))) :
    parseF (g + 1) (PTask.objTail acc s) =
      (match skipWs y with
       | c2 :: r3 =>
           if c2 = ':' then
             (match parseF g (PTask.val r3) with
              | some (v, r4) =>
                  (match skipWs r4 with
                   | c3 :: r5 =>
                       if c3 = ',' then parseF g (PTask.objTail (objInsert k v acc) r5)
                       else if c3 = rbrace then some (Json.obj (objInsert k v acc), r5)
                       else none
                   | [] => none)
              | none => none)
           else none
       | [] => none) := by
  conv_lhs => unfold parseF
  rw [hs]
  simp only [if_pos rfl]
  rw [parseJStr_escapeStr k y]
  rw [if_pos trivial]

theorem parse_dumps_all : ∀ f : Nat,
    (∀ j, Canon j → ∀ rest, jfuel j ≤ f → numBdry rest = true →
        parseF f (PTask.val (dumps j ++ rest)) = some (j, rest)) ∧
    (∀ x xs acc rest, Canon x → (∀ y ∈ xs, Canon y) →
        1 + jfuel x + jfuelL xs ≤ f → numBdry rest = true →
        parseF f (PTask.arrTail acc (dumps x ++ (serArrRest xs ++ (']' :: rest)))) =
          some (Json.arr (acc ++ x :: xs), rest)) ∧
    (∀ k v kvs acc rest, Canon v → (∀ p ∈ kvs, Canon p.2) →
        1 + jfuel v + jfuelO kvs ≤ f → numBdry rest = true →
        ((acc ++ (k, v) :: kvs).map Prod.fst).Nodup →
        parseF f (PTask.objTail acc (serStr k ++ ((':' :: ' ' :: dumps v) ++
          (serObjRest kvs ++ (rbrace :: rest))))) =
          some (Json.obj (acc ++ (k, v) :: kvs), rest)) := by
  intro f
  induction f using Nat.strong_induction_on with
  | _ f ih =>
  refine ⟨?_, ?_, ?_⟩
  · intro j hc rest hf hrest
    obtain ⟨g, rfl⟩ : ∃ g, f = g + 1 := ⟨f - 1, by have := jfuel_pos j; omega⟩
    cases j with
    | null =>
        rw [show dumps Json.null = 'n' :: 'u' :: 'l' :: 'l' :: [] by simp only [dumps]; rfl]
        rfl
    | bool b =>
        cases b with
        | true =>
            rw [show dumps (Json.bool true) = 't' :: 'r' :: 'u' :: 'e' :: [] by
              simp only [dumps]; rfl]
            rfl
        | false =>
            rw [show dumps (Json.bool false) = 'f' :: 'a' :: 'l' :: 's' :: 'e' :: [] by
              simp only [dumps]; rfl]
            rfl
    | num n =>
        by_cases hn : n < 0
        · rw [show dumps (Json.num n) = intToStr n by simp only [dumps], intToStr_neg n hn,
            List.cons_append, parseF_val_minus g, parseJNum_ntd n.natAbs rest hrest]
          have hval : -(Int.ofNat n.natAbs) = n := by
            simp only [Int.ofNat_eq_natCast]
            omega
          show some (Json.num (-(Int.ofNat n.natAbs)), rest) = some (Json.num n, rest)
          rw [hval]
        · rw [show dumps (Json.num n) = intToStr n by simp only [dumps],
            intToStr_nonneg n (by omega), parseF_val_digits g n.natAbs rest hrest]
          have hval : Int.ofNat n.natAbs = n := by
            simp only [Int.ofNat_eq_natCast]
            omega
          rw [hval]
    | str s =>
        rw [show dumps (Json.str s) = '"' :: (escapeStr s ++ ['"']) by simp only [dumps, serStr]]
        rw [List.cons_append, List.append_assoc, List.singleton_append]
        rw [parseF_val_quote g, parseJStr_escapeStr s rest]
        rfl
    | arr xs =>
        cases xs with
        | nil =>
            rw [show dumps (Json.arr []) = '[' :: ']' :: [] by simp only [dumps]]
            rfl
        | cons x xs2 =>
            have hcx : Canon x := canon_arr_mem _ hc x (List.mem_cons_self x xs2)
            have hcxs : ∀ y ∈ xs2, Canon y := fun y hy =>
              canon_arr_mem _ hc y (List.mem_cons_of_mem x hy)
            rw [show dumps (Json.arr (x :: xs2)) = '[' :: ((dumps x ++ serArrRest xs2) ++ [']'])
              by simp only [dumps]]
            rw [List.cons_append]
            rw [show ((dumps x ++ serArrRest xs2) ++ [']']) ++ rest =
                dumps x ++ (serArrRest xs2 ++ (']' :: rest)) by simp [List.append_assoc]]
            rcases dumps_head x with ⟨c, cs, hdx, hws, hne, _, _⟩
            have hskip : skipWs (dumps x ++ (serArrRest xs2 ++ (']' :: rest))) =
                c :: (cs ++ (serArrRest xs2 ++ (']' :: rest))) := by
              rw [hdx, List.cons_append]
              exact skipWs_cons_neg _ _ hws
            rw [parseF_val_lbrack g _ _ c hskip hne]
            have harr := ((ih g (by omega)).2.1) x xs2 [] rest hcx hcxs
              (by simp only [jfuel] at hf; omega) hrest
            rw [List.nil_append] at harr
            exact harr
    | obj kvs =>
        rcases canon_obj_parts _ hc with ⟨hcv, hnd⟩
        cases kvs with
        | nil =>
            rw [show dumps (Json.obj []) = lbrace :: rbrace :: [] by simp only [dumps]]
            rfl
        | cons p kvs2 =>
            rcases p with ⟨k, v⟩
            rw [show dumps (Json.obj ((k, v) :: kvs2)) =
                lbrace :: ((serStr k ++ (':' :: ' ' :: dumps v) ++ serObjRest kvs2) ++ [rbrace])
              by simp only [dumps]]
            rw [List.cons_append]
            rw [show ((serStr k ++ (':' :: ' ' :: dumps v) ++ serObjRest kvs2) ++ [rbrace]) ++ rest =
                serStr k ++ ((':' :: ' ' :: dumps v) ++ (serObjRest kvs2 ++ (rbrace :: rest)))
              by simp [List.append_assoc]]
            have hskip : skipWs (serStr k ++ ((':' :: ' ' :: dumps v) ++
                (serObjRest kvs2 ++ (rbrace :: rest)))) =
                '"' :: ((escapeStr k ++ ['"']) ++ ((':' :: ' ' :: dumps v) ++
                  (serObjRest kvs2 ++ (rbrace :: rest)))) := by
              rw [show serStr k = '"' :: (escapeStr k ++ ['"']) from rfl, List.cons_append]
              exact skipWs_cons_neg _ _ (by decide)
            rw [parseF_val_lbrace_obj g _ _ '"' hskip (by decide)]
            have hobj := ((ih g (by omega)).2.2) k v kvs2 [] rest
              (hcv (k, v) (List.mem_cons_self _ _))
              (fun p hp => hcv p (List.mem_cons_of_mem _ hp))
              (by simp only [jfuel] at hf; omega) hrest (by rw [List.nil_append]; exact hnd)
            rw [List.nil_append] at hobj
            exact hobj
  · intro x xs acc rest hcx hcxs hfa hrest
    obtain ⟨g, rfl⟩ : ∃ g, f = g + 1 := ⟨f - 1, by have := jfuel_pos x; omega⟩
    have hval := (ih g (by omega)).1 x hcx (serArrRest xs ++ (']' :: rest))
      (by have := jfuel_pos x; omega) (numBdry_serArr xs rest)
    rw [parseF_arrTail_step g acc _ x _ hval]
    cases xs with
    | nil =>
        rw [show serArrRest ([] : List Json) = [] by simp only [serArrRest]]
        rw [List.nil_append, skipWs_cons_neg ']' rest (by decide)]
        show (if (']' : Char) = ',' then parseF g (PTask.arrTail (acc ++ [x]) rest)
          else if (']' : Char) = ']' then some (Json.arr (acc ++ [x]), rest) else none) =
          some (Json.arr (acc ++ x :: []), rest)
        rw [if_neg (by decide), if_pos rfl]
    | cons y ys =>
        rw [show serArrRest (y :: ys) ++ (']' :: rest) =
            ',' :: ' ' :: (dumps y ++ (serArrRest ys ++ (']' :: rest))) by
          simp only [serArrRest]; simp [List.append_assoc]]
        rw [skipWs_cons_neg ',' _ (by decide)]
        simp only [if_pos rfl]
        rw [parseF_arrTail_ws g ' ' _ _ (by decide)]
        have harr := (ih g (by omega)).2.1 y ys (acc ++ [x]) rest
          (hcxs y (List.mem_cons_self _ _)) (fun z hz => hcxs z (List.mem_cons_of_mem _ hz))
          (by simp only [jfuelL] at hfa; have := jfuel_pos x; omega) hrest
        rw [harr]
        simp
  · intro k v kvs acc rest hcv hckvs hfo hrest hnd
    obtain ⟨g, rfl⟩ : ∃ g, f = g + 1 := ⟨f - 1, by have := jfuel_pos v; omega⟩
    have hs : skipWs (serStr k ++ ((':' :: ' ' :: dumps v) ++
        (serObjRest kvs ++ (rbrace :: rest)))) =
        '"' :: (escapeStr k ++ ('"' :: ((':' :: ' ' :: dumps v) ++
          (serObjRest kvs ++ (rbrace :: rest))))) := by
      rw [show serStr k = '"' :: (escapeStr k ++ ['"']) from rfl, List.cons_append]
      rw [skipWs_cons_neg _ _ (by decide), List.append_assoc, List.singleton_append]
    rw [parseF_objTail_step g acc _ k _ hs]
    rw [show ((':' :: ' ' :: dumps v) ++ (serObjRest kvs ++ (rbrace :: rest))) =
        ':' :: (' ' :: (dumps v ++ (serObjRest kvs ++ (rbrace :: rest)))) by simp]
    rw [skipWs_cons_neg ':' _ (by decide)]
    simp only [if_pos rfl]
    rw [if_pos trivial]
    rw [parseF_val_ws g ' ' _ (by decide)]
    have hval := (ih g (by omega)).1 v hcv (serObjRest kvs ++ (rbrace :: rest))
      (by have := jfuel_pos v; omega) (numBdry_serObj kvs rest)
    rw [hval]
    show (match skipWs (serObjRest kvs ++ (rbrace :: rest)) with
      | c3 :: r5 =>
          if c3 = ',' then parseF g (PTask.objTail (objInsert k v acc) r5)
          else if c3 = rbrace then some (Json.obj (objInsert k v acc), r5) else none
      | [] => none) = some (Json.obj (acc ++ (k, v) :: kvs), rest)
    have hfresh : k ∉ acc.map Prod.fst := nodup_head_fresh acc k v kvs hnd
    cases kvs with
    | nil =>
        rw [show serObjRest ([] : List (Str × Json)) = [] by simp only [serObjRest]]
        rw [List.nil_append, skipWs_cons_neg rbrace rest (by decide)]
        show (if rbrace = ',' then parseF g (PTask.objTail (objInsert k v acc) rest)
          else if rbrace = rbrace then some (Json.obj (objInsert k v acc), rest) else none) =
          some (Json.obj (acc ++ (k, v) :: []), rest)
        rw [if_neg (by decide), if_pos rfl, objInsert_fresh k v acc hfresh]
    | cons p kvs2 =>
        rcases p with ⟨k2, v2⟩
        rw [show serObjRest ((k2, v2) :: kvs2) ++ (rbrace :: rest) =
            ',' :: ' ' :: (serStr k2 ++ ((':' :: ' ' :: dumps v2) ++
              (serObjRest kvs2 ++ (rbrace :: rest)))) by
          simp only [serObjRest]; simp [List.append_assoc]]
        rw [skipWs_cons_neg ',' _ (by decide)]
        simp only [if_pos rfl]
        rw [parseF_objTail_ws g ' ' _ _ (by decide), objInsert_fresh k v acc hfresh]
        have hobj := (ih g (by omega)).2.2 k2 v2 kvs2 (acc ++ [(k, v)]) rest
          (hckvs (k2, v2) (List.mem_cons_self _ _))
          (fun p hp => hckvs p (List.mem_cons_of_mem _ hp))
          (by simp only [jfuelO] at hfo; have := jfuel_pos v; omega) hrest
          (by rw [List.append_assoc]; simpa using hnd)
        rw [hobj]
        simp

theorem dumps_len_pos (j : Json) : 1 ≤ (dumps j).length := by
  rcases dumps_head j with ⟨c, cs, hd, _⟩
  rw [hd]
  simp

theorem jfuel_le_all : ∀ n : Nat,
    (∀ j, sizeOf j ≤ n → jfuel j ≤ 2 * (dumps j).length) ∧
    (∀ xs : List Json, sizeOf xs ≤ n → jfuelL xs ≤ 2 * (serArrRest xs).length) ∧
    (∀ kvs : List (Str × Json), sizeOf kvs ≤ n →
      jfuelO kvs ≤ 2 * (serObjRest kvs).length) := by
  intro n
  induction n using Nat.strong_induction_on with
  | _ n ih =>
  refine ⟨?_, ?_, ?_⟩
  · intro j hsz
    cases j with
    | null =>
        have := dumps_len_pos Json.null
        simp only [jfuel]
        omega
    | bool b =>
        have := dumps_len_pos (Json.bool b)
        simp only [jfuel]
        omega
    | num m =>
        have := dumps_len_pos (Json.num m)
        simp only [jfuel]
        omega
    | str s =>
        have := dumps_len_pos (Json.str s)
        simp only [jfuel]
        omega
    | arr xs =>
        cases xs with
        | nil =>
            rw [show dumps (Json.arr []) = '[' :: ']' :: [] by simp only [dumps]]
            simp [jfuel]
        | cons x xs2 =>
            have hs1 : sizeOf (Json.arr (x :: xs2)) = 1 + (1 + sizeOf x + sizeOf xs2) := by
              simp
            have hx := (ih (sizeOf x) (by omega)).1 x (Nat.le_refl _)
            have hxs := (ih (sizeOf xs2) (by omega)).2.1 xs2 (Nat.le_refl _)
            rw [show dumps (Json.arr (x :: xs2)) = '[' :: ((dumps x ++ serArrRest xs2) ++ [']'])
              by simp only [dumps]]
            simp only [jfuel, List.length_cons, List.length_append, List.length_singleton]
            omega
    | obj kvs =>
        cases kvs with
        | nil =>
            rw [show dumps (Json.obj []) = lbrace :: rbrace :: [] by simp only [dumps]]
            simp [jfuel]
        | cons p kvs2 =>
            rcases p with ⟨k, v⟩
            have hs1 : sizeOf (Json.obj ((k, v) :: kvs2)) =
                1 + (1 + (1 + sizeOf k + sizeOf v) + sizeOf kvs2) := by
              simp
            have hv := (ih (sizeOf v) (by omega)).1 v (Nat.le_refl _)
            have hkvs := (ih (sizeOf kvs2) (by omega)).2.2 kvs2 (Nat.le_refl _)
            rw [show dumps (Json.obj ((k, v) :: kvs2)) =
                lbrace :: ((serStr k ++ (':' :: ' ' :: dumps v) ++ serObjRest kvs2) ++ [rbrace])
              by simp only [dumps]]
            simp only [jfuel, List.length_cons, List.length_append, List.length_singleton]
            omega
  · intro xs hsz
    cases xs with
    | nil => simp [jfuelL, serArrRest]
    | cons x xs2 =>
        have hs1 : sizeOf (x :: xs2) = 1 + sizeOf x + sizeOf xs2 := by simp
        have hx := (ih (sizeOf x) (by omega)).1 x (Nat.le_refl _)
        have hxs := (ih (sizeOf xs2) (by omega)).2.1 xs2 (Nat.le_refl _)
        rw [show serArrRest (x :: xs2) = ',' :: ' ' :: (dumps x ++ serArrRest xs2)
          by simp only [serArrRest]]
        simp only [jfuelL, List.length_cons, List.length_append]
        omega
  · intro kvs hsz
    cases kvs with
    | nil => simp [jfuelO, serObjRest]
    | cons p kvs2 =>
        rcases p with ⟨k, v⟩
        have hs1 : sizeOf ((k, v) :: kvs2) = 1 + (1 + sizeOf k + sizeOf v) + sizeOf kvs2 := by
          simp
        have hv := (ih (sizeOf v) (by omega)).1 v (Nat.le_refl _)
        have hkvs := (ih (sizeOf kvs2) (by omega)).2.2 kvs2 (Nat.le_refl _)
        rw [show serObjRest ((k, v) :: kvs2) =
            ',' :: ' ' :: (serStr k ++ (':' :: ' ' :: dumps v) ++ serObjRest kvs2)
          by simp only [serObjRest]]
        simp only [jfuelO, List.length_cons, List.length_append]
        omega

theorem jsonLoads_dumps (j : Json) (hc : Canon j) : jsonLoads (dumps j) = some j := by
  unfold jsonLoads
  have hfl : jfuel j ≤ 2 * (dumps j).length + 8 := by
    have := (jfuel_le_all (sizeOf j)).1 j (Nat.le_refl _)
    omega
  have hrt := (parse_dumps_all (2 * (dumps j).length + 8)).1 j hc [] hfl rfl
  rw [List.append_nil] at hrt
  rw [hrt]
  rfl

theorem objInsert_canon (k : Str) (v : Json) (l : List (Str × Json))
    (hl : ∀ p ∈ l, Canon p.2) (hv : Canon v) : ∀ p ∈ objInsert k v l, Canon p.2 := by
  induction l with
  | nil =>
      intro p hp
      rw [show objInsert k v [] = [(k, v)] from rfl, List.mem_singleton] at hp
      rw [hp]
      exact hv
  | cons q rest ih =>
      rcases q with ⟨k', v'⟩
      intro p hp
      unfold objInsert at hp
      by_cases hk : k' = k
      · rw [if_pos hk] at hp
        rcases List.mem_cons.mp hp with h | h
        · rw [h]; exact hv
        · exact hl p (List.mem_cons_of_mem _ h)
      · rw [if_neg hk] at hp
        rcases List.mem_cons.mp hp with h | h
        · rw [h]; exact hl (k', v') (List.mem_cons_self _ _)
        · exact ih (fun q hq => hl q (List.mem_cons_of_mem _ hq)) p h

theorem objInsert_keys (k : Str) (v : Json) (l : List (Str × Json)) :
    (objInsert k v l).map Prod.fst = if k ∈ l.map Prod.fst then l.map Prod.fst
      else l.map Prod.fst ++ [k] := by
  induction l with
  | nil => simp [objInsert]
  | cons q rest ih =>
      rcases q with ⟨k', v'⟩
      by_cases hk : k' = k
      · rw [show objInsert k v ((k', v') :: rest) = (k', v) :: rest by
          unfold objInsert; rw [if_pos hk]]
        rw [List.map_cons, List.map_cons,
          if_pos (show k ∈ k' :: rest.map Prod.fst by rw [hk]; exact List.mem_cons_self k _)]
      · unfold objInsert
        rw [if_neg hk]
        simp only [List.map_cons, ih]
        by_cases hm : k ∈ rest.map Prod.fst
        · rw [if_pos hm, if_pos (List.mem_cons_of_mem _ hm)]
        · rw [if_neg hm, if_neg (show ¬ k ∈ k' :: rest.map Prod.fst from by
            intro hc
            rcases List.mem_cons.mp hc with h | h
            · exact hk h.symm
            · exact hm h)]
          rw [List.cons_append]

theorem objInsert_nodup (k : Str) (v : Json) (l : List (Str × Json))
    (h : (l.map Prod.fst).Nodup) : ((objInsert k v l).map Prod.fst).Nodup := by
  rw [objInsert_keys]
  by_cases hm : k ∈ l.map Prod.fst
  · rw [if_pos hm]; exact h
  · rw [if_neg hm]
    rw [List.nodup_append]
    refine ⟨h, List.nodup_singleton k, ?_⟩
    intro a ha hb
    rw [List.mem_singleton] at hb
    subst hb
    exact hm ha

theorem parseF_canon : ∀ f t r, parseF f t = some r →
    (match t with
     | PTask.val _ => True
     | PTask.arrTail acc _ => ∀ x ∈ acc, Canon x
     | PTask.objTail acc _ => (∀ p ∈ acc, Canon p.2) ∧ (acc.map Prod.fst).Nodup) →
    Canon r.1 := by
  intro f
  induction f with
  | zero => intro t r hr hinv; cases hr
  | succ g ih =>
      intro t r hr hinv
      cases t with
      | val s =>
          unfold parseF at hr
          split at hr
          · cases hr
          · split at hr
            · split at hr
              · split at hr
                · cases hr
                  exact Canon.obj [] (fun p hp => absurd hp (List.not_mem_nil p)) List.nodup_nil
                · exact ih _ r hr ⟨fun p hp => absurd hp (List.not_mem_nil p), List.nodup_nil⟩
              · cases hr
            · split at hr
              · split at hr
                · split at hr
                  · cases hr
                    exact Canon.arr [] (fun x hx => absurd hx (List.not_mem_nil x))
                  · exact ih _ r hr (fun x hx => absurd hx (List.not_mem_nil x))
                · cases hr
              · split at hr
                · rcases Option.map_eq_some'.mp hr with ⟨pr, _, hpr⟩
                  rw [← hpr]
                  exact Canon.str _
                · split at hr
                  · rcases Option.map_eq_some'.mp hr with ⟨pr, _, hpr⟩
                    rw [← hpr]
                    exact Canon.num _
                  · split at hr
                    · split at hr
                      · cases hr
                        exact Canon.bool true
                      · cases hr
                    · split at hr
                      · split at hr
                        · cases hr
                          exact Canon.bool false
                        · cases hr
                      · split at hr
                        · split at hr
                          · cases hr
                            exact Canon.null
                          · cases hr
                        · rcases Option.map_eq_some'.mp hr with ⟨pr, _, hpr⟩
                          rw [← hpr]
                          exact Canon.num _
      | arrTail acc s =>
          unfold parseF at hr
          split at hr
          · cases hr
          · rename_i v rr heqv
            have hv : Canon v := ih (PTask.val s) (v, rr) heqv trivial
            have hacc : ∀ x ∈ acc, Canon x := hinv
            have hacc2 : ∀ x ∈ acc ++ [v], Canon x := by
              intro x hx
              rcases List.mem_append.mp hx with h | h
              · exact hacc x h
              · rw [List.mem_singleton.mp h]
                exact hv
            split at hr
            · split at hr
              · exact ih _ r hr hacc2
              · split at hr
                · cases hr
                  exact Canon.arr _ hacc2
                · cases hr
            · cases hr
      | objTail acc s =>
          unfold parseF at hr
          rcases hinv with ⟨hca, hnda⟩
          split at hr
          · split at hr
            · split at hr
              · rename_i k r2 heqk
                split at hr
                · split at hr
                  · split at hr
                    · rename_i v r4 heqval
                      have hv : Canon v := ih (PTask.val _) (v, r4) heqval trivial
                      have hins1 := objInsert_canon k v acc hca hv
                      have hins2 := objInsert_nodup k v acc hnda
                      split at hr
                      · split at hr
                        · exact ih _ r hr ⟨hins1, hins2⟩
                        · split at hr
                          · cases hr
                            exact Canon.obj _ hins1 hins2
                          · cases hr
                      · cases hr
                    · cases hr
                  · cases hr
                · cases hr
              · cases hr
            · cases hr
          · cases hr

theorem jsonLoads_canon (s : Str) (j : Json) (h : jsonLoads s = some j) : Canon j := by
  unfold jsonLoads at h
  split at h
  · rename_i j2 rest heq
    split at h
    · cases h
      exact parseF_canon _ _ _ heq trivial
    · cases h
  · cases h

theorem attemptParse_canon (t : Str) (j : Json) (h : attemptParse t = some j) : Canon j := by
  have h2 : (match _clean_json_from_text (pyStrip t) with
      | some c => jsonLoads c
      | none => jsonLoads (pyStrip t)) = some j := h
  split at h2
  · exact jsonLoads_canon _ _ h2
  · exact jsonLoads_canon _ _ h2

theorem tryModels_firstHit (a b r s f : Str) : ∀ (bs : List Backend) (n : Nat),
    tryModels a b r s f bs n =
      (match firstHit bs with
       | some (k, j) => (some j, n + (k + 1))
       | none => (_local_fallback_plan a b r s f, n + bs.length)) := by
  intro bs
  induction bs with
  | nil =>
      intro n
      show (_local_fallback_plan a b r s f, n) = (_local_fallback_plan a b r s f, n + 0)
      rw [Nat.add_zero]
  | cons bk rest ih =>
      intro n
      cases bk with
      | none =>
          show tryModels a b r s f rest (n + 1) = _
          rw [ih (n + 1)]
          show _ = (match firstHit (none :: rest) with
            | some (k, j) => (some j, n + (k + 1))
            | none => (_local_fallback_plan a b r s f, n + (none :: rest).length))
          rw [show firstHit (none :: rest) =
            (firstHit rest).map (fun p => (p.1 + 1, p.2)) from rfl]
          cases hfh : firstHit rest with
          | none =>
              show (_local_fallback_plan a b r s f, n + 1 + rest.length) = _
              rw [List.length_cons]
              show _ = (_local_fallback_plan a b r s f, n + (rest.length + 1))
              rw [show n + 1 + rest.length = n + (rest.length + 1) by omega]
          | some p =>
              rcases p with ⟨k, j⟩
              show (some j, n + 1 + (k + 1)) = (some j, n + (k + 1 + 1))
              rw [show n + 1 + (k + 1) = n + (k + 1 + 1) by omega]
      | some t =>
          cases hat : attemptParse t with
          | some j =>
              show (match attemptParse t with
                | some plan => (some plan, n + 1)
                | none => tryModels a b r s f rest (n + 1)) = _
              rw [hat, show firstHit (some t :: rest) =
                (match (some t).bind attemptParse with
                 | some j => some (0, j)
                 | none => (firstHit rest).map (fun p => (p.1 + 1, p.2))) from rfl]
              show (some j, n + 1) = _
              rw [show (some t).bind attemptParse = attemptParse t from rfl, hat]
          | none =>
              show (match attemptParse t with
                | some plan => (some plan, n + 1)
                | none => tryModels a b r s f rest (n + 1)) = _
              rw [hat, ih (n + 1)]
              rw [show firstHit (some t :: rest) =
                (match (some t).bind attemptParse with
                 | some j => some (0, j)
                 | none => (firstHit rest).map (fun p => (p.1 + 1, p.2))) from rfl]
              rw [show (some t).bind attemptParse = attemptParse t from rfl, hat]
              cases hfh : firstHit rest with
              | none =>
                  show (_local_fallback_plan a b r s f, n + 1 + rest.length) = _
                  rw [List.length_cons]
                  show _ = (_local_fallback_plan a b r s f, n + (rest.length + 1))
                  rw [show n + 1 + rest.length = n + (rest.length + 1) by omega]
              | some p =>
                  rcases p with ⟨k, j⟩
                  show (some j, n + 1 + (k + 1)) = (some j, n + (k + 1 + 1))
                  rw [show n + 1 + (k + 1) = n + (k + 1 + 1) by omega]

theorem generate_plan_firstHit (bs : List Backend) (a b r s f : Str) :
    generate_plan true bs a b r s f = firstHitResult bs a b r s f := by
  show tryModels a b r s f bs 0 = _
  rw [tryModels_firstHit a b r s f bs 0]
  unfold firstHitResult
  cases hfh : firstHit bs with
  | none => rw [Nat.zero_add]
  | some p =>
      rcases p with ⟨k, j⟩
      show (some j, 0 + (k + 1)) = (some j, k + 1)
      rw [Nat.zero_add]

theorem hasLBrace_sub (xs ys : Str) (h : ys <:+: xs) (hx : hasLBrace xs = false) :
    hasLBrace ys = false := by
  by_contra hc
  have hmem : lbrace ∈ ys := hasLBrace_iff ys |>.mp (by simpa using hc)
  have : lbrace ∈ xs := h.sublist.subset hmem
  rw [(hasLBrace_iff xs).mpr this] at hx
  cases hx

theorem clean_none_of_plain (t : Str) (hb : hasLBrace t = false) (hf : hasFence t = false) :
    _clean_json_from_text t = none := by
  have hinf := pyStrip_sub t
  have hf2 : hasFence (pyStrip t) = false := hasFence_sub _ _ hinf hf
  have hb2 : hasLBrace (pyStrip t) = false := hasLBrace_sub _ _ hinf hb
  show (if hasFence (pyStrip t) = true then
      match (fenceSplit (pyStrip t)).find? (fun p => hasLBrace p) with
      | some p => some (fencedCandidate p)
      | none => braceMatch (pyStrip t)
    else braceMatch (pyStrip t)) = none
  rw [hf2]
  simp only [Bool.false_eq_true, if_false]
  exact braceMatch_none _ hb2

theorem attemptParse_plain (t : Str) (hb : hasLBrace t = false) (hf : hasFence t = false) :
    attemptParse t = jsonLoads (pyStrip t) := by
  have hinf := pyStrip_sub t
  show (match _clean_json_from_text (pyStrip t) with
    | some c => jsonLoads c
    | none => jsonLoads (pyStrip t)) = _
  rw [clean_none_of_plain (pyStrip t) (hasLBrace_sub _ _ hinf hb) (hasFence_sub _ _ hinf hf)]

theorem firstHit_none (bs : List Backend)
    (h : ∀ t, some t ∈ bs → attemptParse t = none) : firstHit bs = none := by
  induction bs with
  | nil => rfl
  | cons bk rest ih =>
      have hrest : firstHit rest = none :=
        ih (fun t ht => h t (List.mem_cons_of_mem _ ht))
      cases bk with
      | none =>
          show (firstHit rest).map (fun p => (p.1 + 1, p.2)) = none
          rw [hrest]
          rfl
      | some t =>
          show (match (some t).bind attemptParse with
            | some j => some ((0 : Nat), j)
            | none => (firstHit rest).map (fun p => (p.1 + 1, p.2))) = none
          rw [show (some t).bind attemptParse = attemptParse t from rfl,
            h t (List.mem_cons_self _ _), hrest]
          rfl

theorem attemptParse_noFence (p : Str) (hb : btick ∉ p) :
    attemptParse p = (match braceMatch (pyStrip p) with
      | some g => jsonLoads g
      | none => jsonLoads (pyStrip p)) := by
  have hinf := pyStrip_sub p
  have hf2 : hasFence (pyStrip p) = false :=
    hasFence_sub _ _ hinf (hasFence_of_not_btick p hb)
  have hclean : _clean_json_from_text (pyStrip p) = braceMatch (pyStrip p) := by
    show (if hasFence (pyStrip (pyStrip p)) = true then
        match (fenceSplit (pyStrip (pyStrip p))).find? (fun q => hasLBrace q) with
        | some q => some (fencedCandidate q)
        | none => braceMatch (pyStrip (pyStrip p))
      else braceMatch (pyStrip (pyStrip p))) = _
    rw [pyStrip_idem, hf2]
    simp only [Bool.false_eq_true, if_false]
  show (match _clean_json_from_text (pyStrip p) with
    | some c => jsonLoads c
    | none => jsonLoads (pyStrip p)) = _
  rw [hclean]

/-- The fenced response of the language-tag claim: narrative text, a fence
carrying the `json` tag, the payload, a closing fence, and a sign-off. -/
def fencedWrap (p : Str) : Str :=
  str ("Here is your plan:\n\x60\x60\x60json") ++ (p ++ str ("\x60\x60\x60\nThanks!"))

theorem attemptParse_fencedWrap (p : Str) (hb : btick ∉ p) (hl : lbrace ∈ p) :
    attemptParse (fencedWrap p) = attemptParse p := by
  have hw : pyStrip (fencedWrap p) = fencedWrap p := by
    have hshape : fencedWrap p = 'H' ::
        ((str ("ere is your plan:\n\x60\x60\x60json") ++ (p ++ str ("\x60\x60\x60\nThanks"))) ++
          ['!']) := by
      show str ("Here is your plan:\n\x60\x60\x60json") ++ (p ++ str ("\x60\x60\x60\nThanks!")) = _
      rw [show str ("Here is your plan:\n\x60\x60\x60json") =
        'H' :: str ("ere is your plan:\n\x60\x60\x60json") from rfl]
      rw [show str ("\x60\x60\x60\nThanks!") = str ("\x60\x60\x60\nThanks") ++ ['!'] from rfl]
      simp [List.append_assoc]
    rw [hshape]
    exact pyStrip_wrap _ _ _ (by decide) (by decide)
  have hsegb : btick ∉ str ("json") ++ p := by
    intro hm
    rcases List.mem_append.mp hm with h | h
    · exact absurd h (by decide)
    · exact hb h
  have hsplit : fenceSplit (fencedWrap p) =
      [str ("Here is your plan:\n"), str ("json") ++ p, str ("\nThanks!")] := by
    have harg : fencedWrap p = str ("Here is your plan:\n") ++
        (btick :: btick :: btick :: ((str ("json") ++ p) ++
          (btick :: btick :: btick :: str ("\nThanks!")))) := by
      unfold fencedWrap
      rw [show str ("Here is your plan:\n\x60\x60\x60json") =
        str ("Here is your plan:\n") ++ (btick :: btick :: btick :: str ("json")) from rfl]
      rw [show str ("\x60\x60\x60\nThanks!") =
        btick :: btick :: btick :: str ("\nThanks!") from rfl]
      simp [List.append_assoc]
    rw [harg, fenceSplit_append _ _ (by decide), fenceSplit_append _ _ hsegb,
      fenceSplit_no_btick _ (by decide)]
  have hfind : ([str ("Here is your plan:\n"), str ("json") ++ p,
      str ("\nThanks!")].find? (fun q => hasLBrace q)) = some (str ("json") ++ p) := by
    have h1 : hasLBrace (str ("Here is your plan:\n")) = false := by decide
    have h2 : hasLBrace (str ("json") ++ p) = true := by
      rw [hasLBrace_append]
      rw [(hasLBrace_iff p).mpr hl]
      simp
    rw [List.find?_cons_of_neg _ (by rw [h1]; exact Bool.false_ne_true),
      List.find?_cons_of_pos _ h2]
  have hf : hasFence (fencedWrap p) = true := by
    unfold fencedWrap
    exact hasFence_append_left _ _ (by decide)
  have hclean : _clean_json_from_text (fencedWrap p) =
      some (fencedCandidate (str ("json") ++ p)) := by
    show (if hasFence (pyStrip (fencedWrap p)) = true then
        match (fenceSplit (pyStrip (fencedWrap p))).find? (fun q => hasLBrace q) with
        | some q => some (fencedCandidate q)
        | none => braceMatch (pyStrip (fencedWrap p))
      else braceMatch (pyStrip (fencedWrap p))) = _
    rw [hw, hf, if_pos rfl, hsplit, hfind]
  have hcand : fencedCandidate (str ("json") ++ p) =
      (match braceMatch (pyStrip p) with
       | some g => g
       | none => pyStrip p) := by
    show (match braceMatch (pyStrip (replaceFirstJson (str ("json") ++ p))) with
      | some g => g
      | none => pyStrip (pyStrip (replaceFirstJson (str ("json") ++ p)))) = _
    rw [show replaceFirstJson (str ("json") ++ p) = p from rfl, pyStrip_idem]
  show (match _clean_json_from_text (pyStrip (fencedWrap p)) with
    | some c => jsonLoads c
    | none => jsonLoads (pyStrip (fencedWrap p))) = _
  rw [hw, hclean, hcand, attemptParse_noFence p hb]
  cases braceMatch (pyStrip p) <;> rfl

/-- The two-fence response of the segment-selection claim: one fenced
segment without braces, interstitial text, then a fenced payload. -/
def twoFenceWrap (p : Str) : Str :=
  str ("\x60\x60\x60\nThe first fenced segment has no braces at all.\n\x60\x60\x60 and then \x60\x60\x60") ++
    (p ++ str ("\x60\x60\x60"))

theorem attemptParse_twoFenceWrap (kvs : List (Str × Json)) (hc : Canon (Json.obj kvs))
    (hb : btick ∉ dumps (Json.obj kvs))
    (hj : replaceFirstJson (dumps (Json.obj kvs)) = dumps (Json.obj kvs)) :
    attemptParse (twoFenceWrap (dumps (Json.obj kvs))) = some (Json.obj kvs) := by
  set p := dumps (Json.obj kvs) with hp
  have hw : pyStrip (twoFenceWrap p) = twoFenceWrap p := by
    have hshape : twoFenceWrap p = btick ::
        ((str ("\x60\x60\nThe first fenced segment has no braces at all.\n\x60\x60\x60 and then \x60\x60\x60") ++
          (p ++ str ("\x60\x60"))) ++ [btick]) := by
      show str ("\x60\x60\x60\nThe first fenced segment has no braces at all.\n\x60\x60\x60 and then \x60\x60\x60") ++
        (p ++ str ("\x60\x60\x60")) = _
      rw [show str ("\x60\x60\x60\nThe first fenced segment has no braces at all.\n\x60\x60\x60 and then \x60\x60\x60") =
        btick :: str ("\x60\x60\nThe first fenced segment has no braces at all.\n\x60\x60\x60 and then \x60\x60\x60") from rfl]
      rw [show str ("\x60\x60\x60") = str ("\x60\x60") ++ [btick] from rfl]
      simp [List.append_assoc]
    rw [hshape]
    exact pyStrip_wrap _ _ _ (by decide) (by decide)
  have harg : twoFenceWrap p = ([] : Str) ++
      (btick :: btick :: btick ::
        (str ("\nThe first fenced segment has no braces at all.\n") ++
          (btick :: btick :: btick ::
            (str (" and then ") ++
              (btick :: btick :: btick ::
                (p ++ (btick :: btick :: btick :: ([] : Str)))))))) := by
    show str ("\x60\x60\x60\nThe first fenced segment has no braces at all.\n\x60\x60\x60 and then \x60\x60\x60") ++
      (p ++ str ("\x60\x60\x60")) = _
    rw [show str ("\x60\x60\x60\nThe first fenced segment has no braces at all.\n\x60\x60\x60 and then \x60\x60\x60") =
      (btick :: btick :: btick :: str ("\nThe first fenced segment has no braces at all.\n")) ++
        ((btick :: btick :: btick :: str (" and then ")) ++ [btick, btick, btick]) from rfl]
    rw [show str ("\x60\x60\x60") = [btick, btick, btick] from rfl]
    simp [List.append_assoc]
  have hsplit : fenceSplit (twoFenceWrap p) =
      [[], str ("\nThe first fenced segment has no braces at all.\n"),
        str (" and then "), p, []] := by
    rw [harg, fenceSplit_append _ _ (by decide), fenceSplit_append _ _ (by decide),
      fenceSplit_append _ _ (by decide), fenceSplit_append _ _ hb,
      fenceSplit_no_btick _ (by decide)]
  have hfind : ([([] : Str), str ("\nThe first fenced segment has no braces at all.\n"),
      str (" and then "), p, []].find? (fun q => hasLBrace q)) = some p := by
    rw [List.find?_cons_of_neg _ (by decide), List.find?_cons_of_neg _ (by decide),
      List.find?_cons_of_neg _ (by decide),
      List.find?_cons_of_pos _ (hasLBrace_dumps_obj kvs)]
  have hf : hasFence (twoFenceWrap p) = true := by
    show hasFence (str ("\x60\x60\x60\nThe first fenced segment has no braces at all.\n\x60\x60\x60 and then \x60\x60\x60") ++
      (p ++ str ("\x60\x60\x60"))) = true
    exact hasFence_append_left _ _ (by decide)
  have hcand : fencedCandidate p = p := by
    show (match braceMatch (pyStrip (replaceFirstJson p)) with
      | some g => g
      | none => pyStrip (pyStrip (replaceFirstJson p))) = _
    rw [hj, hp, pyStrip_dumps_obj, braceMatch_dumps_obj]
  have hclean : _clean_json_from_text (twoFenceWrap p) = some (fencedCandidate p) := by
    show (if hasFence (pyStrip (twoFenceWrap p)) = true then
        match (fenceSplit (pyStrip (twoFenceWrap p))).find? (fun q => hasLBrace q) with
        | some q => some (fencedCandidate q)
        | none => braceMatch (pyStrip (twoFenceWrap p))
      else braceMatch (pyStrip (twoFenceWrap p))) = _
    rw [hw, hf, if_pos rfl, hsplit, hfind]
  show (match _clean_json_from_text (pyStrip (twoFenceWrap p)) with
    | some c => jsonLoads c
    | none => jsonLoads (pyStrip (twoFenceWrap p))) = _
  rw [hw, hclean, hcand, hp]
  exact jsonLoads_dumps _ hc

/-- Extract the string payload of a JSON string value. -/
def jsonStrVal : Json → Option Str
  | Json.str s => some s
  | _ => none

/-! Claim theorems. -/

/-- C1: the claim says `generate_plan` returns a five-key Plan for every
five string inputs and never raises.  The code violates this: with a
non-numeric area and a positive integral room count, the unguarded
`int(area)` on line 79 of `_local_fallback_plan` raises `ValueError`,
which `generate_plan` does not catch on either the unavailable path
(line 103) or the all-backends-failed path (line 153); the `none` result
models the uncaught exception reaching the caller. -/
theorem c1_generate_plan_raises_on_nonnumeric_area :
    generate_plan false [] (str ("abc")) (str ("500000")) (str ("3"))
      (str ("modern")) (str ("yes")) = (none, 0) ∧
    generate_plan true [some (str ("oops"))] (str ("abc")) (str ("500000")) (str ("3"))
      (str ("modern")) (str ("yes")) = (none, 1) :=
  ⟨rfl, rfl⟩

/-- C2: the claim says the local fallback generator treats a non-numeric
area as 0 and still produces 8x8 ft rooms.  The code instead raises
`ValueError` from the unguarded `int(area)` (line 79) whenever the rooms
field is a positive integer and the area is not numeric; `none` models
that exception. -/
theorem c2_local_fallback_raises_on_nonnumeric_area :
    _local_fallback_plan (str ("abc")) (str ("500000")) (str ("3"))
      (str ("modern")) (str ("yes")) = none :=
  rfl

/-- C3: with rooms `"3"` and area `"900"` the local fallback produces
exactly three rooms sized `300x300 ft`; with rooms `"0"`, `"-2"` or
`"abc"` it produces the fixed canonical three-room template, for every
area (and budget/style/furniture). -/
theorem c3_fallback_room_plan (area b s f : Str) :
    (_local_fallback_plan (str ("900")) b (str ("3")) s f).bind roomPlanOf =
      some (Json.arr
        [Json.obj [(str ("room"), Json.str (str ("Room 1"))),
                   (str ("size"), Json.str (str ("300x300 ft")))],
         Json.obj [(str ("room"), Json.str (str ("Room 2"))),
                   (str ("size"), Json.str (str ("300x300 ft")))],
         Json.obj [(str ("room"), Json.str (str ("Room 3"))),
                   (str ("size"), Json.str (str ("300x300 ft")))]]) ∧
    (_local_fallback_plan area b (str ("0")) s f).bind roomPlanOf =
      some (Json.arr templateRooms) ∧
    (_local_fallback_plan area b (str ("-2")) s f).bind roomPlanOf =
      some (Json.arr templateRooms) ∧
    (_local_fallback_plan area b (str ("abc")) s f).bind roomPlanOf =
      some (Json.arr templateRooms) :=
  ⟨rfl, rfl, rfl, rfl⟩

/-- C4 counterexample: the claim says the invoker stops at the first
backend that returns non-empty text without raising, and that a parse
failure of that text routes directly to the local fallback without
attempting later backends.  In the code a parse failure simply continues
the loop: with a first backend returning unparseable prose and a second
returning `{}`, the call attempts both backends (count 2) and returns the
second backend's plan, not the local fallback (whose summary field is
shown for contrast). -/
theorem c4_counterexample :
    generate_plan true
      [some (str ("this backend returned prose, not JSON")), some (str ("\x7b\x7d"))]
      (str ("800")) (str ("500000")) (str ("2")) (str ("modern")) (str ("yes")) =
      (some (Json.obj []), 2) ∧
    ((some (Json.obj []) : Option Json).bind (jsonGet (str ("summary"))) = none) ∧
    (_local_fallback_plan (str ("800")) (str ("500000")) (str ("2")) (str ("modern"))
      (str ("yes"))).bind (jsonGet (str ("summary"))) =
      some (Json.str (str ("Local fallback plan: 2 rooms, style=modern, furniture=yes"))) :=
  ⟨rfl, rfl, rfl⟩

/-- C4 amended: the invoker attempts backends strictly in order and stops
at the first backend whose response survives extraction and strict JSON
parsing; an attempt whose invocation raises or whose text fails to parse
is skipped, and the local fallback plan is returned only after every
backend has been attempted.  `firstHitResult` states exactly that. -/
theorem c4_invoker_first_parsed_hit (bs : List Backend) (a b r s f : Str) :
    generate_plan true bs a b r s f = firstHitResult bs a b r s f :=
  generate_plan_firstHit bs a b r s f

/-- C5 counterexample: the claim says that on input with two fenced
segments where only the second contains a brace, extraction must fail.
In the code the split-part scan simply selects the first part containing
a brace, which here is the second fenced segment, and extraction
succeeds with its JSON body. -/
theorem c5_counterexample :
    _clean_json_from_text
      (str ("\x60\x60\x60\nno braces here\n\x60\x60\x60 mid \x60\x60\x60\n\x7b\"a\": 1\x7d\n\x60\x60\x60")) =
      some (str ("\x7b\"a\": 1\x7d")) ∧
    attemptParse
      (str ("\x60\x60\x60\nno braces here\n\x60\x60\x60 mid \x60\x60\x60\n\x7b\"a\": 1\x7d\n\x60\x60\x60")) =
      some (Json.obj [(str ("a"), Json.num 1)]) :=
  ⟨rfl, rfl⟩

/-- C5 amended: with two fenced segments of which only the second
contains a brace, extraction does not fail: the second segment is the
first brace-containing split part, it is selected, and for a fenced
serialized object (containing no backtick and unaffected by the
`json`-marker removal) extraction succeeds with exactly that object. -/
theorem c5_second_segment_selected (kvs : List (Str × Json))
    (hc : Canon (Json.obj kvs)) (hb : btick ∉ dumps (Json.obj kvs))
    (hj : replaceFirstJson (dumps (Json.obj kvs)) = dumps (Json.obj kvs)) :
    attemptParse (twoFenceWrap (dumps (Json.obj kvs))) = some (Json.obj kvs) :=
  attemptParse_twoFenceWrap kvs hc hb hj

/-- C6 counterexample: the claim says that whenever the raw text has no
opening brace and no fence, the overall call returns the local fallback
plan.  But after extraction returns `None` the code parses the stripped
raw text itself (lines 138-143): a bare JSON array such as `[1, 2]` has
no brace and no fence, extraction fails, yet strict parsing of the raw
text succeeds and the array is returned instead of the fallback plan
(which, unlike the array, carries a summary field). -/
theorem c6_counterexample :
    generate_plan true [some (str ("[1, 2]"))] (str ("800")) (str ("500000"))
      (str ("2")) (str ("modern")) (str ("yes")) =
      (some (Json.arr [Json.num 1, Json.num 2]), 1) ∧
    _clean_json_from_text (str ("[1, 2]")) = none ∧
    ((some (Json.arr [Json.num 1, Json.num 2]) : Option Json).bind
      (jsonGet (str ("summary"))) = none) ∧
    (_local_fallback_plan (str ("800")) (str ("500000")) (str ("2")) (str ("modern"))
      (str ("yes"))).bind (jsonGet (str ("summary"))) =
      some (Json.str (str ("Local fallback plan: 2 rooms, style=modern, furniture=yes"))) :=
  ⟨rfl, rfl, rfl, rfl⟩

/-- C6 amended: for backend texts with no opening brace and no fence,
extraction does fail; the overall call returns exactly the local fallback
plan provided the stripped raw texts also fail strict JSON parsing
(without that extra condition the raw text itself is parsed, see the
counterexample). -/
theorem c6_braceless_falls_back (bs : List Backend) (a b r s f : Str)
    (h : ∀ t, some t ∈ bs → hasLBrace t = false ∧ hasFence t = false ∧
      jsonLoads (pyStrip t) = none) :
    (∀ t, some t ∈ bs → _clean_json_from_text t = none) ∧
    generate_plan true bs a b r s f = (_local_fallback_plan a b r s f, bs.length) := by
  constructor
  · intro t ht
    exact clean_none_of_plain t (h t ht).1 (h t ht).2.1
  · rw [generate_plan_firstHit]
    unfold firstHitResult
    rw [firstHit_none bs (fun t ht => by
      rw [attemptParse_plain t (h t ht).1 (h t ht).2.1]
      exact (h t ht).2.2)]

/-- C6 amended, witness at a one-backend list whose text is plain prose. -/
theorem c6_braceless_falls_back_witness :
    (∀ t, some t ∈ ([some (str ("hello backend"))] : List Backend) →
      hasLBrace t = false ∧ hasFence t = false ∧ jsonLoads (pyStrip t) = none) ∧
    ((∀ t, some t ∈ ([some (str ("hello backend"))] : List Backend) →
        _clean_json_from_text t = none) ∧
      generate_plan true [some (str ("hello backend"))] (str ("800")) (str ("500000"))
        (str ("2")) (str ("modern")) (str ("yes")) =
      (_local_fallback_plan (str ("800")) (str ("500000")) (str ("2")) (str ("modern"))
        (str ("yes")), ([some (str ("hello backend"))] : List Backend).length)) := by
  have hh : ∀ t, some t ∈ ([some (str ("hello backend"))] : List Backend) →
      hasLBrace t = false ∧ hasFence t = false ∧ jsonLoads (pyStrip t) = none := by
    intro t ht
    simp only [List.mem_singleton, Option.some.injEq] at ht
    subst ht
    exact ⟨rfl, rfl, rfl⟩
  exact ⟨hh, c6_braceless_falls_back _ _ _ _ _ _ hh⟩

/-- C7 counterexample: the claim says the literal marker `json` is
stripped only when it occurs at the start of the selected fenced segment
and that the payload itself is never altered.  The code instead removes
the FIRST occurrence of `json` anywhere in the segment (line 56): for an
untagged fenced object whose payload contains the string `json`, the
occurrence inside the payload is deleted, so the extracted mapping
differs from the one obtained from the bare unfenced object (observed
through the value at key `a`). -/
theorem c7_counterexample :
    attemptParse (str ("\x60\x60\x60\n\x7b\"a\": \"json\"\x7d\n\x60\x60\x60")) =
      some (Json.obj [(str ("a"), Json.str (str ("")))]) ∧
    attemptParse (str ("\x7b\"a\": \"json\"\x7d")) =
      some (Json.obj [(str ("a"), Json.str (str ("json")))]) ∧
    ((some (Json.obj [(str ("a"), Json.str (str ("")))]) : Option Json).bind
        (jsonGet (str ("a")))).bind jsonStrVal ≠
      ((some (Json.obj [(str ("a"), Json.str (str ("json")))]) : Option Json).bind
        (jsonGet (str ("a")))).bind jsonStrVal :=
  ⟨rfl, rfl, by decide⟩

/-- C7 amended: when the fence carries the leading `json` tag, the first
occurrence removed by the code is the tag itself, so the payload is
preserved: a response of the shape
`Here is your plan:` newline three-backticks `json` payload
three-backticks newline `Thanks!` extracts and parses to exactly the
same value as the bare payload, for every payload containing an opening
brace and no backtick — including payloads in which the string `json`
occurs. -/
theorem c7_tagged_fence_same_as_bare (p : Str) (hb : btick ∉ p) (hl : lbrace ∈ p) :
    attemptParse (fencedWrap p) = attemptParse p :=
  attemptParse_fencedWrap p hb hl

/-- C7 amended, witness at a payload that itself contains `json`. -/
theorem c7_tagged_fence_same_as_bare_witness :
    btick ∉ str ("\x7b\"a\": \"json\"\x7d") ∧ lbrace ∈ str ("\x7b\"a\": \"json\"\x7d") ∧
    attemptParse (fencedWrap (str ("\x7b\"a\": \"json\"\x7d"))) =
      attemptParse (str ("\x7b\"a\": \"json\"\x7d")) :=
  ⟨by decide, by decide,
    c7_tagged_fence_same_as_bare (str ("\x7b\"a\": \"json\"\x7d")) (by decide) (by decide)⟩

/-- C8: when no backend client can be constructed (`self.available` is
false, computed once in `__init__`), `generate_plan` attempts zero
backend calls and returns exactly the local fallback plan for the five
inputs (lines 101-103), for every backend list and all inputs. -/
theorem c8_unavailable_zero_calls (bs : List Backend) (a b r s f : Str) :
    generate_plan false bs a b r s f = (_local_fallback_plan a b r s f, 0) :=
  rfl

/-- C9 counterexample: the claim says re-feeding the serialized form of
any previously extracted plan reproduces an equivalent plan.  A plan
value may contain a literal backtick (obtainable from the extractor via
a ``` escape, which strict JSON parsing decodes); `json.dumps` does
not escape the backtick, so the serialized form of such a plan contains
a triple-backtick fence, the extractor takes the fenced branch, selects
a truncated brace-less fragment, and parsing fails. -/
theorem c9_counterexample :
    attemptParse (str ("\x7b\"a\": \"x\\u0060\\u0060\\u0060y\"\x7d")) =
      some (Json.obj [(str ("a"), Json.str (str ("x\x60\x60\x60y")))]) ∧
    dumps (Json.obj [(str ("a"), Json.str (str ("x\x60\x60\x60y")))]) =
      str ("\x7b\"a\": \"x\x60\x60\x60y\"\x7d") ∧
    attemptParse (str ("\x7b\"a\": \"x\x60\x60\x60y\"\x7d")) = none := by
  refine ⟨rfl, ?_, rfl⟩
  simp only [dumps, serObjRest, serStr, escapeStr, escapeChar, str, lbrace, rbrace]
  decide

/-- C9 amended: round-trip stability holds for every extracted plan that
is an object and whose serialized form contains no triple-backtick
fence: parsing the output of the extractor-parser pipeline, serializing
it, and feeding the result back reproduces exactly the same plan.  (The
object restriction reflects the spec's Plan shape; the no-fence
condition excludes the backtick counterexample and holds for every
fence-free plan, in particular all plans whose strings avoid the
backtick character.) -/
theorem c9_roundtrip_stable (raw : Str) (j : Json)
    (h1 : attemptParse raw = some j) (h2 : isObj j = true)
    (h3 : hasFence (dumps j) = false) :
    attemptParse (dumps j) = some j := by
  cases j with
  | obj kvs =>
      have hc : Canon (Json.obj kvs) := attemptParse_canon raw _ h1
      show (match _clean_json_from_text (pyStrip (dumps (Json.obj kvs))) with
        | some c => jsonLoads c
        | none => jsonLoads (pyStrip (dumps (Json.obj kvs)))) = _
      rw [pyStrip_dumps_obj, clean_dumps_obj kvs h3]
      exact jsonLoads_dumps _ hc
  | null => exact Bool.noConfusion h2
  | bool b => exact Bool.noConfusion h2
  | num n => exact Bool.noConfusion h2
  | str s => exact Bool.noConfusion h2
  | arr xs => exact Bool.noConfusion h2

/-- C9 amended, witness at the one-key object plan with summary `x`. -/
theorem c9_roundtrip_stable_witness :
    attemptParse (str ("\x7b\"summary\": \"x\"\x7d")) =
      some (Json.obj [(str ("summary"), Json.str (str ("x")))]) ∧
    isObj (Json.obj [(str ("summary"), Json.str (str ("x")))]) = true ∧
    hasFence (dumps (Json.obj [(str ("summary"), Json.str (str ("x")))])) = false ∧
    attemptParse (dumps (Json.obj [(str ("summary"), Json.str (str ("x")))])) =
      some (Json.obj [(str ("summary"), Json.str (str ("x")))]) := by
  have hd : dumps (Json.obj [(str ("summary"), Json.str (str ("x")))]) =
      str ("\x7b\"summary\": \"x\"\x7d") := by
    simp only [dumps, serObjRest, serStr, escapeStr, escapeChar, str, lbrace, rbrace]
    decide
  refine ⟨rfl, rfl, by rw [hd]; decide, ?_⟩
  exact c9_roundtrip_stable (str ("\x7b\"summary\": \"x\"\x7d")) _ rfl rfl (by rw [hd]; decide)

/-- C10: when the rooms field parses as a positive integer `r` and the
area field parses as an integer `a` (zero and negative included), the
local fallback builds exactly `r` generated rooms whose common side is
`max 8 (a fdiv r)` (line 79: `max(8, int(area) // max(1, rooms_int))`,
where the inner guard `max 1 r` equals `r` here); the side is always at
least 8, so room sizes are never zero or negative. -/
theorem c10_generated_room_size (area budget rooms style furniture : Str)
    (a r : Int) (ha : pyInt area = some a) (hr : pyInt rooms = some r) (hpos : 0 < r) :
    _local_fallback_plan area budget rooms style furniture =
      some (fallbackPlanObj (generatedRooms (max 8 (Int.fdiv a r)) r.toNat)
        budget rooms style furniture) ∧
    8 ≤ max 8 (Int.fdiv a r) ∧
    (generatedRooms (max 8 (Int.fdiv a r)) r.toNat).length = r.toNat := by
  have hmax : max 1 r = r := by omega
  refine ⟨?_, le_max_left _ _, by simp [generatedRooms]⟩
  simp only [_local_fallback_plan, hr, ha, hmax]
  rw [if_pos hpos]

/-- C10 witness: a negative area `-50` with 3 rooms yields 3 rooms of
side `max 8 (-50 fdiv 3) = 8`. -/
theorem c10_generated_room_size_witness :
    pyInt (str ("-50")) = some (-50) ∧ pyInt (str ("3")) = some 3 ∧ (0 : Int) < 3 ∧
    max 8 (Int.fdiv (-50) 3) = 8 ∧
    (_local_fallback_plan (str ("-50")) (str ("500000")) (str ("3")) (str ("modern"))
        (str ("yes")) =
      some (fallbackPlanObj (generatedRooms (max 8 (Int.fdiv (-50) 3)) (3 : Int).toNat)
        (str ("500000")) (str ("3")) (str ("modern")) (str ("yes"))) ∧
      8 ≤ max 8 (Int.fdiv (-50) 3) ∧
      (generatedRooms (max 8 (Int.fdiv (-50) 3)) (3 : Int).toNat).length = (3 : Int).toNat) :=
  ⟨by decide, by decide, by decide, by decide,
    c10_generated_room_size _ _ _ _ _ (-50) 3 (by decide) (by decide) (by decide)⟩

/-- C5 amended, witness at the one-key object plan mapping `a` to 1. -/
theorem c5_second_segment_selected_witness :
    Canon (Json.obj [(str ("a"), Json.num 1)]) ∧
    btick ∉ dumps (Json.obj [(str ("a"), Json.num 1)]) ∧
    replaceFirstJson (dumps (Json.obj [(str ("a"), Json.num 1)])) =
      dumps (Json.obj [(str ("a"), Json.num 1)]) ∧
    attemptParse (twoFenceWrap (dumps (Json.obj [(str ("a"), Json.num 1)]))) =
      some (Json.obj [(str ("a"), Json.num 1)]) := by
  have hd : dumps (Json.obj [(str ("a"), Json.num 1)]) = str ("\x7b\"a\": 1\x7d") := by
    simp only [dumps, serObjRest, serStr, escapeStr, escapeChar, str, lbrace, rbrace,
      intToStr, natToDigits, natToDigitsAux]
    decide
  have hc : Canon (Json.obj [(str ("a"), Json.num 1)]) := by
    refine Canon.obj _ ?_ (by decide)
    intro p hp
    simp only [List.mem_singleton] at hp
    subst hp
    exact Canon.num 1
  exact ⟨hc, by rw [hd]; decide, by rw [hd]; decide,
    c5_second_segment_selected _ hc (by rw [hd]; decide) (by rw [hd]; decide)⟩
